import Mathlib

/-!
# SABT firmware: FAT32 storage engine, MP3 playlist and line editor

A shallow embedding of parts of `SABT_MainUnit/FAT32.h`, `SABT_MainUnit/audio.c`
and `SABT_MainUnit/io.c`, followed by theorems about them. The structure declarations
and constants of FAT32.h, the playlist of audio.c and the line editor of io.c are
translated from the C sources; constants and macros of headers that are not among the
sources (Globals.h, io.h) are parameters. FAT32.h only declares the functions of the
storage engine, so these are modelled from the specification; each such definition
says so.
-/

namespace SABT

/-! ## FAT32.h: constants and structure declarations -/

/-- The `#define BUFFER_SIZE 512` of FAT32.h. -/
def BUFFER_SIZE : Nat := 512

/-- The `#define DIR_ENTRY_SIZE 0x32` of FAT32.h (a hexadecimal literal). -/
def DIR_ENTRY_SIZE : Nat := 0x32

/-- The `#define FAT32_EOF 0x0fffffff` of FAT32.h. -/
def FAT32_EOF : Nat := 0x0fffffff

/-- The scalar C types that occur in the structure declarations of FAT32.h. -/
inductive CType where
  | uchar
  | uint
  | ulong
deriving DecidableEq, Repr

/-- Size in bytes of a scalar type on the AVR target: `char` 1, `int` 2, `long` 4. -/
def CType.size : CType → Nat
  | .uchar => 1
  | .uint => 2
  | .ulong => 4

/-- One member of a C structure: its name, its element type and the number of
elements (1 for a scalar member, the array length for an array member). -/
structure Field where
  name : String
  ty : CType
  count : Nat
deriving DecidableEq, Repr

/-- Number of bytes a member occupies. -/
def Field.size (f : Field) : Nat := f.ty.size * f.count

/-- The `sizeof` of a structure on the AVR target, where every type has alignment 1
and so members follow each other without padding. -/
def sizeofStruct : List Field → Nat
  | [] => 0
  | f :: fs => f.size + sizeofStruct fs

/-- The `offsetof` of the member called `name`, or `none` when there is none. -/
def offsetOf (name : String) : List Field → Option Nat
  | [] => none
  | f :: fs => if f.name = name then some 0 else (offsetOf name fs).map (f.size + ·)

/-- The member called `name`, or `none` when there is none. -/
def fieldOf (name : String) : List Field → Option Field
  | [] => none
  | f :: fs => if f.name = name then some f else fieldOf name fs

/-- The declaration `struct MBRinfo_Structure` of FAT32.h. -/
def MBRinfo_Structure : List Field :=
  [ ⟨"nothing", .uchar, 446⟩,
    ⟨"partition_data", .uchar, 64⟩,
    ⟨"signature", .uint, 1⟩ ]

/-- The declaration `struct partitionInfo_Structure` of FAT32.h. -/
def partitionInfo_Structure : List Field :=
  [ ⟨"status", .uchar, 1⟩,
    ⟨"head_start", .uchar, 1⟩,
    ⟨"cyl_sect_start", .uint, 1⟩,
    ⟨"type", .uchar, 1⟩,
    ⟨"head_end", .uchar, 1⟩,
    ⟨"cyl_sect_end", .uint, 1⟩,
    ⟨"first_sector", .ulong, 1⟩,
    ⟨"sectors_total", .ulong, 1⟩ ]

/-- The declaration `struct BS_Structure` of FAT32.h. -/
def BS_Structure : List Field :=
  [ ⟨"jump_boot", .uchar, 3⟩,
    ⟨"oem_name", .uchar, 8⟩,
    ⟨"bytes_per_sector", .uint, 1⟩,
    ⟨"sector_per_cluster", .uchar, 1⟩,
    ⟨"reserved_sector_count", .uint, 1⟩,
    ⟨"number_of_fats", .uchar, 1⟩,
    ⟨"root_entry_count", .uint, 1⟩,
    ⟨"total_sectors_f16", .uint, 1⟩,
    ⟨"media_type", .uchar, 1⟩,
    ⟨"fat_size_f16", .uint, 1⟩,
    ⟨"sectors_per_track", .uint, 1⟩,
    ⟨"number_of_heads", .uint, 1⟩,
    ⟨"hidden_sectors", .ulong, 1⟩,
    ⟨"total_sectors_f32", .ulong, 1⟩,
    ⟨"fat_size_f32", .ulong, 1⟩,
    ⟨"ext_flags", .uint, 1⟩,
    ⟨"fs_version", .uint, 1⟩,
    ⟨"root_cluster", .ulong, 1⟩,
    ⟨"fs_info", .uint, 1⟩,
    ⟨"backup_boot_sector", .uint, 1⟩,
    ⟨"reserved", .uchar, 12⟩,
    ⟨"drive_number", .uchar, 1⟩,
    ⟨"reserved1", .uchar, 1⟩,
    ⟨"boot_signature", .uchar, 1⟩,
    ⟨"volume_id", .ulong, 1⟩,
    ⟨"volume_label", .uchar, 11⟩,
    ⟨"file_system_type", .uchar, 8⟩,
    ⟨"boot_data", .uchar, 420⟩,
    ⟨"boot_end_signature", .uint, 1⟩ ]

/-- The declaration `struct FSInfo_Structure` of FAT32.h. -/
def FSInfo_Structure : List Field :=
  [ ⟨"lead_signature", .ulong, 1⟩,
    ⟨"reserved1", .uchar, 480⟩,
    ⟨"structure_signature", .ulong, 1⟩,
    ⟨"free_cluster_count", .ulong, 1⟩,
    ⟨"next_free_cluster", .ulong, 1⟩,
    ⟨"reserved2", .uchar, 12⟩,
    ⟨"trail_signature", .ulong, 1⟩ ]

/-- The declaration `struct dir_Structure` of FAT32.h. -/
def dir_Structure : List Field :=
  [ ⟨"name", .uchar, 11⟩,
    ⟨"attrib", .uchar, 1⟩,
    ⟨"nt_reserved", .uchar, 1⟩,
    ⟨"time_tenth", .uchar, 1⟩,
    ⟨"create_time", .uint, 1⟩,
    ⟨"create_date", .uint, 1⟩,
    ⟨"last_access_date", .uint, 1⟩,
    ⟨"first_cluster_hi", .uint, 1⟩,
    ⟨"write_time", .uint, 1⟩,
    ⟨"write_date", .uint, 1⟩,
    ⟨"first_cluster_lo", .uint, 1⟩,
    ⟨"file_size", .ulong, 1⟩ ]

/-- The `#define EMPTY 0x00` of FAT32.h. -/
def EMPTY : Nat := 0x00

/-- The `#define DELETED 0xe5` of FAT32.h. -/
def DELETED : Nat := 0xe5

/-- The `#define ATTR_ARCHIVE 0x20` of FAT32.h. -/
def ATTR_ARCHIVE : Nat := 0x20

/-- The `#define GET 0` of FAT32.h. -/
def GET : Nat := 0

/-- The `#define SET 1` of FAT32.h. -/
def SET : Nat := 1

/-- The `#define ADD 0` of FAT32.h. -/
def ADD : Nat := 0

/-- The `#define REMOVE 1` of FAT32.h. -/
def REMOVE : Nat := 1

/-- The `#define TOTAL_FREE 1` of FAT32.h. -/
def TOTAL_FREE : Nat := 1

/-- The `#define NEXT_FREE 2` of FAT32.h. -/
def NEXT_FREE : Nat := 2

/-! ## The FAT32 engine

FAT32.h only declares the functions of the storage engine; their bodies are not among
the sources. The definitions of this section follow the description that the
specification gives of them (its sections 3 and 4). -/

/-- Modelled from the spec: the Volume of the data model (section 3), the geometry
that `get_boot_sector_data` derives and that FAT32.h keeps in the variables
`bytes_per_sector`, `sector_per_cluster`, `reserved_sector_count`, `root_cluster`,
`total_clusters`, `first_data_sector`. -/
structure Volume where
  bytes_per_sector : Nat
  sector_per_cluster : Nat
  reserved_sector_count : Nat
  number_of_fats : Nat
  fat_size : Nat
  root_cluster : Nat
  total_clusters : Nat
  first_data_sector : Nat

/-- Modelled from the spec: the DirectoryEntry of the data model (section 3), with
the members of `dir_Structure` that the engine fills in: the 11 bytes of the 8.3
name, the attribute byte, the two 16-bit halves of the first cluster and the file
size in bytes. The timestamps are left out. -/
structure DirEntry where
  name : List Nat
  attrib : Nat
  first_cluster_hi : Nat
  first_cluster_lo : Nat
  file_size : Nat
deriving DecidableEq, Repr

/-- Modelled from the spec: the engine context of section 9, which owns the Volume,
the block device (`disk sector offset` is a byte of the sector that `read_sector`
returns; writes always succeed) and the FreeSpaceCounters of section 3. The FAT is
kept on `disk` to the byte, as section 4.2 describes it. The contents of the data
clusters (`clusters c i` is byte `i` of cluster `c`) and the 32-byte slots of the root
directory, in the order in which a scan meets them, are kept as section 3 describes
them, apart from the sectors that hold them. -/
structure Engine where
  vol : Volume
  disk : Nat → Nat → Nat
  free_cluster_count : Nat
  next_free_cluster : Nat
  free_cluster_count_updated : Bool
  clusters : Nat → Nat → Nat
  root_dir : List DirEntry

/-- Modelled from the spec: `write_sector(lba, data)` of section 6. -/
def write_sector (disk : Nat → Nat → Nat) (lba : Nat) (data : Nat → Nat) :
    Nat → Nat → Nat :=
  fun s => if s = lba then data else disk s

/-- Modelled from the spec: the 4-byte little-endian value at offset `off` of a
sector buffer (section 4.2). -/
def read_le32 (buf : Nat → Nat) (off : Nat) : Nat :=
  buf off % 256 + 256 * (buf (off + 1) % 256) + 65536 * (buf (off + 2) % 256)
    + 16777216 * (buf (off + 3) % 256)

/-- Modelled from the spec: the sector buffer after the 32-bit value `x` has been
stored little-endian at offset `off` (section 4.2). -/
def write_le32 (buf : Nat → Nat) (off x : Nat) : Nat → Nat :=
  fun j =>
    if j = off then x % 256
    else if j = off + 1 then x / 256 % 256
    else if j = off + 2 then x / 65536 % 256
    else if j = off + 3 then x / 16777216 % 256
    else buf j

/-- Modelled from the spec: `fat_sector = reserved_sector_count + (cluster*4) /
bytes_per_sector` (section 4.2). -/
def fat_sector (v : Volume) (cluster : Nat) : Nat :=
  v.reserved_sector_count + (cluster * 4) / v.bytes_per_sector

/-- Modelled from the spec: `offset = (cluster*4) mod bytes_per_sector`
(section 4.2). -/
def fat_offset (v : Volume) (cluster : Nat) : Nat :=
  (cluster * 4) % v.bytes_per_sector

/-- Modelled from the spec: the 32-bit entry of `cluster` as stored in the first FAT
copy, reserved bits included (section 4.2). -/
def fat_entry_raw (e : Engine) (cluster : Nat) : Nat :=
  read_le32 (e.disk (fat_sector e.vol cluster)) (fat_offset e.vol cluster)

/-- Modelled from the spec: the disk after the sector buffer `buf` of the FAT sector
`sector` has been written to the first `n` FAT copies, copy `i` lying `i * fat_size`
sectors after the first (section 4.2, "mirrored to every FAT copy"). -/
def write_fat_copies (v : Volume) (sector : Nat) (buf : Nat → Nat) :
    Nat → (Nat → Nat → Nat) → (Nat → Nat → Nat)
  | 0, disk => disk
  | n + 1, disk =>
    write_sector (write_fat_copies v sector buf n disk) (sector + n * v.fat_size) buf

/-- Modelled from the spec: `get_set_next_cluster`, declared in FAT32.h, as the
`get_next` and `set_next` of section 4.2. With `GET` it returns the entry of
`cluster_number` with the 4 reserved bits masked off. With `SET` it replaces the low
28 bits of the entry by those of `cluster_entry`, keeps the top 4 bits, writes the
sector to every FAT copy and returns 0. -/
def get_set_next_cluster (cluster_number get_set cluster_entry : Nat) (e : Engine) :
    Nat × Engine :=
  let sector := fat_sector e.vol cluster_number
  let offset := fat_offset e.vol cluster_number
  let buf := e.disk sector
  let old := read_le32 buf offset
  if get_set = GET then (old % 2 ^ 28, e)
  else
    let entry := old / 2 ^ 28 * 2 ^ 28 + cluster_entry % 2 ^ 28
    let buf1 := write_le32 buf offset entry
    (0, { e with disk := write_fat_copies e.vol sector buf1 e.vol.number_of_fats e.disk })

/-- An engine for evaluation: 512-byte sectors, 32 reserved sectors, two FAT copies
of 8 sectors and 1022 clusters, on a disk whose every byte is `0xff`. -/
def engine_ff : Engine :=
  { vol := { bytes_per_sector := 512, sector_per_cluster := 1,
             reserved_sector_count := 32, number_of_fats := 2, fat_size := 8,
             root_cluster := 2, total_clusters := 1022, first_data_sector := 48 },
    disk := fun _ _ => 0xff,
    free_cluster_count := 0, next_free_cluster := 2,
    free_cluster_count_updated := false,
    clusters := fun _ _ => 0, root_dir := [] }

/-- Modelled from the spec: the error kinds of section 7 that the file operations
return. -/
inductive FsError where
  | FileNotFound
  | OutOfSpace
  | CorruptChain
  | DirectoryFull
deriving DecidableEq, Repr

/-- Modelled from the spec: `get_next(cluster)` of section 4.2, the call
`get_set_next_cluster(cluster, GET, 0)`. -/
def next_cluster (e : Engine) (cluster : Nat) : Nat :=
  (get_set_next_cluster cluster GET 0 e).1

/-- Modelled from the spec: `set_next(cluster, value)` of section 4.2, the call
`get_set_next_cluster(cluster, SET, value)`. -/
def set_next (cluster value : Nat) (e : Engine) : Engine :=
  (get_set_next_cluster cluster SET value e).2

/-- Modelled from the spec: `get_set_free_cluster`, declared in FAT32.h, as the access
to the two FreeSpaceCounters cached from the FSInfo sector (sections 3 and 4.3):
`tot_or_next` selects `free_cluster_count` (`TOTAL_FREE`) or `next_free_cluster`,
`get_set` reads it or replaces it by `fs_entry`. -/
def get_set_free_cluster (tot_or_next get_set fs_entry : Nat) (e : Engine) :
    Nat × Engine :=
  if get_set = GET then
    (if tot_or_next = TOTAL_FREE then e.free_cluster_count else e.next_free_cluster, e)
  else if tot_or_next = TOTAL_FREE then
    (0, { e with free_cluster_count := fs_entry })
  else
    (0, { e with next_free_cluster := fs_entry })

/-- Modelled from the spec: `free_memory_update`, declared in FAT32.h, as the
`mark_freed` (`ADD`) and `mark_allocated` (`REMOVE`) of section 4.3: it adds `size`
clusters to, or takes them from, the 32-bit `free_cluster_count`. -/
def free_memory_update (flag size : Nat) (e : Engine) : Engine :=
  let count := (get_set_free_cluster TOTAL_FREE GET 0 e).1
  if flag = ADD then
    (get_set_free_cluster TOTAL_FREE SET ((count + size) % 2 ^ 32) e).2
  else
    (get_set_free_cluster TOTAL_FREE SET ((count + (2 ^ 32 - size % 2 ^ 32)) % 2 ^ 32) e).2

/-- Modelled from the spec: the clusters that the scan for a free cluster visits, in
order (section 4.2): from `start_cluster` to the last cluster of the volume, or from
cluster 2 when `start_cluster` overruns the volume. -/
def scan_range (v : Volume) (start_cluster : Nat) : List Nat :=
  let last := v.total_clusters + 2
  let start := if 2 ≤ start_cluster ∧ start_cluster < last then start_cluster else 2
  List.range' start (last - start)

/-- Modelled from the spec: `search_next_free_cluster`, declared in FAT32.h, as the
scan of section 4.2: the lowest cluster at or after `start_cluster` whose FAT entry
is 0, the scan starting at cluster 2 when `start_cluster` overruns the volume. -/
def search_next_free_cluster (start_cluster : Nat) (e : Engine) : Option Nat :=
  (scan_range e.vol start_cluster).find? (fun c => next_cluster e c = 0)

/-- Modelled from the spec: `allocate_and_link(tail_cluster)` of section 4.2. It
picks the lowest free cluster at or after the `next_free_cluster` hint, links it as
the new tail (`set_next(tail, new)`, `set_next(new, EOF)`) and decrements
`free_cluster_count`; a `tail_cluster` below 2 starts a new chain. The spec does not
say how allocation moves the hint; it is left where it is. -/
def allocate_and_link (tail_cluster : Nat) (e : Engine) : Except FsError (Nat × Engine) :=
  match search_next_free_cluster (get_set_free_cluster NEXT_FREE GET 0 e).1 e with
  | none => .error .OutOfSpace
  | some new =>
    let e1 := if 2 ≤ tail_cluster then set_next tail_cluster new e else e
    .ok (new, free_memory_update REMOVE 1 (set_next new FAT32_EOF e1))

/-- Modelled from the spec: the release of one cluster (sections 4.3 and 4.5): its
FAT entry is reset to 0 and it is counted back into `free_cluster_count`. -/
def free_cluster (cluster : Nat) (e : Engine) : Engine :=
  free_memory_update ADD 1 (set_next cluster 0 e)

/-- One request to the cluster allocator: allocate a cluster behind `tail`, or free
a cluster. -/
inductive ClusterOp where
  | alloc (tail : Nat)
  | free (cluster : Nat)
deriving DecidableEq, Repr

/-- The outcome of a sequence of requests: the number `allocated` of clusters that
were allocated (a request that meets `OutOfSpace` allocates none), the number `freed`
of clusters that were freed, and the engine afterwards. -/
structure OpsResult where
  allocated : Nat
  freed : Nat
  engine : Engine

/-- Runs a sequence of requests from the engine `e`. -/
def run_ops : List ClusterOp → Engine → OpsResult
  | [], e => { allocated := 0, freed := 0, engine := e }
  | .alloc tail :: ops, e =>
    match allocate_and_link tail e with
    | .error _ => run_ops ops e
    | .ok (_, e1) =>
      let r := run_ops ops e1
      { r with allocated := r.allocated + 1 }
  | .free c :: ops, e =>
    let r := run_ops ops (free_cluster c e)
    { r with freed := r.freed + 1 }

/-- An engine for evaluation: 512-byte sectors, 4 reserved sectors, one FAT copy of
one sector and 4 clusters (numbers 2 to 5), all free on a zeroed disk, with
`free_cluster_count` 4 and an empty root directory of 16 slots in cluster 2. -/
def engine4 : Engine :=
  { vol := { bytes_per_sector := 512, sector_per_cluster := 1,
             reserved_sector_count := 4, number_of_fats := 1, fat_size := 1,
             root_cluster := 2, total_clusters := 4, first_data_sector := 5 },
    disk := fun _ _ => 0,
    free_cluster_count := 4, next_free_cluster := 2,
    free_cluster_count_updated := true,
    clusters := fun _ _ => 0, root_dir := [] }

/-! ### Files

The file operations of section 4.5 of the specification, composed from the cluster
chains of section 4.2 and the directory operations of section 4.4. -/

/-- Modelled from the spec: the volume invariants of section 3 (512-byte sectors, a
cluster count within 28-bit addressing, below the end-of-chain marks), together with
what any FAT32 volume has: at least one sector per cluster, at least one FAT copy, and
a FAT that holds an entry for every cluster. -/
def Volume.wf (v : Volume) : Prop :=
  v.bytes_per_sector = 512 ∧ 1 ≤ v.sector_per_cluster ∧ 1 ≤ v.number_of_fats ∧
  (v.total_clusters + 2) * 4 ≤ v.fat_size * 512 ∧ v.total_clusters + 2 ≤ 0x0FFFFFF8

instance (v : Volume) : Decidable v.wf := by
  unfold Volume.wf
  infer_instance

/-- Modelled from the spec: the cluster numbers of the volume, 2 up to
`total_clusters + 1` (section 3: clusters 0 and 1 never appear in a chain). -/
def valid_cluster (v : Volume) (c : Nat) : Prop := 2 ≤ c ∧ c < v.total_clusters + 2

instance (v : Volume) (c : Nat) : Decidable (valid_cluster v c) := by
  unfold valid_cluster
  infer_instance

/-- Modelled from the spec: the size of a cluster in bytes, `sectors_per_cluster ×
bytes_per_sector` (glossary). -/
def cluster_size (v : Volume) : Nat := v.bytes_per_sector * v.sector_per_cluster

/-- Modelled from the spec: the traversal of a chain (sections 3 and 4.2). From
cluster `c` it follows `get_next`: a masked entry of `0x0FFFFFF8` or more ends the
chain, a masked entry of 0 is a corrupt link; `fuel` bounds the number of clusters,
and a chain that outruns it revisits a cluster, which is corruption too. -/
def walk_chain : Nat → Nat → Engine → Except FsError (List Nat)
  | 0, _, _ => .error .CorruptChain
  | fuel + 1, c, e =>
    if next_cluster e c = 0 then .error .CorruptChain
    else if 0x0FFFFFF8 ≤ next_cluster e c then .ok [c]
    else
      match walk_chain fuel (next_cluster e c) e with
      | .error err => .error err
      | .ok cs => .ok (c :: cs)

/-- Modelled from the spec: the chain that starts at `first_cluster`; a first
cluster below 2 (clusters 0 and 1 never appear in a chain) is the empty chain of a
file without content. No chain has more clusters than the volume. -/
def cluster_chain (first_cluster : Nat) (e : Engine) : Except FsError (List Nat) :=
  if first_cluster < 2 then .ok [] else walk_chain e.vol.total_clusters first_cluster e

/-- Modelled from the spec: the release of a chain (section 4.5): every cluster's FAT
entry is reset to 0 and counted back, following the links read before each reset. -/
def release_chain : Nat → Nat → Engine → Engine
  | 0, _, e => e
  | fuel + 1, c, e =>
    if c < 2 then e
    else if next_cluster e c = 0 ∨ 0x0FFFFFF8 ≤ next_cluster e c then free_cluster c e
    else release_chain fuel (next_cluster e c) (free_cluster c e)

/-- Modelled from the spec: `n` calls of `allocate_and_link`, each behind the cluster
that the call before it allocated; returns the new clusters in chain order. -/
def allocate_chain : Nat → Nat → Engine → Except FsError (List Nat × Engine)
  | 0, _, e => .ok ([], e)
  | n + 1, tail, e =>
    match allocate_and_link tail e with
    | .error err => .error err
    | .ok (c, e1) =>
      match allocate_chain n c e1 with
      | .error err => .error err
      | .ok (cs, e2) => .ok (c :: cs, e2)

/-- Modelled from the spec: case folding of one byte of an 8.3 name (sections 3 and
4.4): the letters `a` to `z` become `A` to `Z`. -/
def fold_case (b : Nat) : Nat := if 97 ≤ b ∧ b ≤ 122 then b - 32 else b

/-- The first name byte of a directory slot. -/
def DirEntry.first_byte (d : DirEntry) : Nat := d.name.headD EMPTY

/-- Modelled from the spec: `find` of section 4.4 (the `find_files` of FAT32.h with
`GET_FILE`). The scan goes slot by slot; a slot whose first name byte is `EMPTY` ends
it, a `DELETED` slot is skipped, and names are compared without regard to case.
Returns the index of the slot and the entry. -/
def dir_find (file_name : List Nat) : List DirEntry → Option (Nat × DirEntry)
  | [] => none
  | d :: ds =>
    if d.first_byte = EMPTY then none
    else if d.first_byte ≠ DELETED ∧ d.name.map fold_case = file_name.map fold_case then
      some (0, d)
    else (dir_find file_name ds).map (fun p => (p.1 + 1, p.2))

/-- Modelled from the spec: `mark_deleted(location)` of section 4.4: the first name
byte of slot `i` becomes `DELETED`. -/
def dir_mark_deleted : Nat → List DirEntry → List DirEntry
  | _, [] => []
  | 0, d :: ds => { d with name := DELETED :: d.name.tail } :: ds
  | i + 1, d :: ds => d :: dir_mark_deleted i ds

/-- Modelled from the spec: the first part of `insert` (section 4.4): the entry
goes into the first `DELETED` or `EMPTY` slot; `none` when there is no such slot. -/
def dir_place (entry : DirEntry) : List DirEntry → Option (List DirEntry)
  | [] => none
  | d :: ds =>
    if d.first_byte = EMPTY ∨ d.first_byte = DELETED then some (entry :: ds)
    else (dir_place entry ds).map (d :: ·)

/-- A zero-filled directory slot. -/
def empty_slot : DirEntry :=
  { name := List.replicate 11 0, attrib := 0, first_cluster_hi := 0,
    first_cluster_lo := 0, file_size := 0 }

/-- The engine with `slots` as the slots of the root directory. -/
def set_root_dir (slots : List DirEntry) (e : Engine) : Engine :=
  { e with root_dir := slots }

/-- Modelled from the spec: `insert` of section 4.4. When no slot can be reused the
chain of the root directory is extended by one cluster behind its last cluster, and
the entry goes into the first of the zero-filled slots of that cluster; the failure
of that allocation is `DirectoryFull`. -/
def dir_insert (entry : DirEntry) (e : Engine) : Except FsError Engine :=
  match dir_place entry e.root_dir with
  | some slots => .ok (set_root_dir slots e)
  | none =>
    match cluster_chain e.vol.root_cluster e with
    | .error err => .error err
    | .ok chain =>
      match allocate_and_link (chain.getLastD 0) e with
      | .error _ => .error .DirectoryFull
      | .ok (_, e1) =>
        .ok (set_root_dir
          (e.root_dir ++ entry :: List.replicate (cluster_size e.vol / 32 - 1) empty_slot)
          e1)

/-- The contents of the data clusters after `bytes` have been written from the
start of cluster `c`. -/
def write_cluster (c : Nat) (bytes : List Nat) (clusters : Nat → Nat → Nat) :
    Nat → Nat → Nat :=
  fun c1 i => if c1 = c ∧ i < bytes.length then bytes.getD i 0 else clusters c1 i

/-- The contents of the data clusters after `content` has been written to the
clusters of `chain`, `size` bytes to each. -/
def write_chain_data (size : Nat) :
    List Nat → List Nat → (Nat → Nat → Nat) → (Nat → Nat → Nat)
  | [], _, clusters => clusters
  | c :: rest, content, clusters =>
    write_chain_data size rest (content.drop size)
      (write_cluster c (content.take size) clusters)

/-- Modelled from the spec: the bytes that `read` takes from a chain (section 4.5):
`size` bytes from every cluster but the last, `last_len` bytes from the last. -/
def read_chain_data (clusters : Nat → Nat → Nat) (size last_len : Nat) :
    List Nat → List Nat
  | [] => []
  | [c] => (List.range last_len).map (clusters c)
  | c :: c1 :: rest =>
    (List.range size).map (clusters c) ++ read_chain_data clusters size last_len (c1 :: rest)

/-- The cluster number that the two halves of a directory entry give. -/
def DirEntry.first_cluster (d : DirEntry) : Nat :=
  d.first_cluster_hi * 65536 + d.first_cluster_lo

/-- The engine after `content` has been written to the clusters of `chain`. -/
def store_content (chain content : List Nat) (e : Engine) : Engine :=
  { e with clusters := write_chain_data (cluster_size e.vol) chain content e.clusters }

/-- Modelled from the spec: the fresh DirectoryEntry of section 4.5: the case-folded
name, the two 16-bit halves of the first cluster of the new chain, and the file size,
a 32-bit member of `dir_Structure`. -/
def fresh_entry (file_name : List Nat) (first_cluster file_size : Nat) : DirEntry :=
  { name := file_name.map fold_case, attrib := ATTR_ARCHIVE,
    first_cluster_hi := first_cluster / 65536 % 65536,
    first_cluster_lo := first_cluster % 65536,
    file_size := file_size % 2 ^ 32 }

/-- Modelled from the spec: the second half of the `write(name, content)` of section
4.5: the clusters for the content are allocated and filled, and a fresh entry is
inserted, with the first cluster of the new chain and with `file_size` the length of
the content; `file_name` is the 11 bytes of an 8.3 name, stored case-folded. -/
def write_new_entry (file_name file_content : List Nat) (e : Engine) :
    Except FsError Engine :=
  let size := cluster_size e.vol
  match allocate_chain ((file_content.length + size - 1) / size) 0 e with
  | .error err => .error err
  | .ok (chain, e2) =>
    dir_insert (fresh_entry file_name (chain.headD 0) file_content.length)
      (store_content chain file_content e2)

/-- Modelled from the spec: `write_file`, declared in FAT32.h, as the
`write(name, content)` of section 4.5 (full replace or create), the content being
passed as an argument. If an entry of that name exists its chain is released and its
slot marked deleted, before the new clusters are allocated and the fresh entry is
written. A failure returns the error and no new state, so that nothing is written. -/
def write_file (file_name file_content : List Nat) (e : Engine) : Except FsError Engine :=
  match dir_find file_name e.root_dir with
  | some (i, d) =>
    write_new_entry file_name file_content
      (set_root_dir (dir_mark_deleted i e.root_dir)
        (release_chain e.vol.total_clusters d.first_cluster e))
  | none => write_new_entry file_name file_content e

/-- Modelled from the spec: `replace_the_contents_of_this_file_with`, declared in
FAT32.h, as the `replace_contents(name, bytes)` of section 6, which is the same
`write(name, content)` of section 4.5 as `write_file`. -/
def replace_the_contents_of_this_file_with (file_name file_content : List Nat)
    (e : Engine) : Except FsError Engine :=
  write_file file_name file_content e

/-- Modelled from the spec: `read_and_retrieve_file_contents`, declared in FAT32.h,
as the `read(name)` of section 4.5: it finds the entry, walks its chain from the first
cluster, reads every cluster and truncates the contents of the last one to
`file_size mod cluster_size`, or keeps it whole when that is 0. -/
def read_and_retrieve_file_contents (file_name : List Nat) (e : Engine) :
    Except FsError (List Nat) :=
  match dir_find file_name e.root_dir with
  | none => .error .FileNotFound
  | some (_, d) =>
    match cluster_chain d.first_cluster e with
    | .error err => .error err
    | .ok chain =>
      let size := cluster_size e.vol
      .ok (read_chain_data e.clusters size
        (if d.file_size % size = 0 then size else d.file_size % size) chain)

/-- The number of free clusters that the scan for a free cluster can find: those at
or after the `next_free_cluster` hint, or all of them when the hint overruns the
volume. -/
def free_clusters_from (e : Engine) : Nat :=
  ((scan_range e.vol e.next_free_cluster).filter (fun c => next_cluster e c = 0)).length

/-- The clusters of the list are linked into a chain in the FAT of `e`: each has the
next one as its entry, and the last has `FAT32_EOF`. -/
def chain_links (e : Engine) : List Nat → Prop
  | [] => True
  | [c] => next_cluster e c = FAT32_EOF
  | c :: c1 :: rest => next_cluster e c = c1 ∧ chain_links e (c1 :: rest)

/-- The 11 bytes are a usable 8.3 name: the first byte is neither the `EMPTY` nor the
`DELETED` mark of a directory slot. -/
def valid_name (file_name : List Nat) : Prop :=
  file_name.length = 11 ∧ file_name.headD EMPTY ≠ EMPTY ∧ file_name.headD EMPTY ≠ DELETED

instance (file_name : List Nat) : Decidable (valid_name file_name) := by
  unfold valid_name
  infer_instance

/-- The chain of the root directory is intact: its traversal from `root_cluster`
ends, and every cluster on it is a cluster of the volume. -/
def root_chain_ok (e : Engine) : Prop :=
  match cluster_chain e.vol.root_cluster e with
  | .ok chain => ∀ c ∈ chain, valid_cluster e.vol c
  | .error _ => False

instance (e : Engine) : Decidable (root_chain_ok e) := by
  unfold root_chain_ok
  split <;> infer_instance

/-- The number of clusters that writing `file_content` under `file_name` allocates:
one for every started `cluster_size` bytes of content, and one more for the root
directory when no entry of that name exists and no slot can be reused. -/
def clusters_needed (file_name file_content : List Nat) (e : Engine) : Nat :=
  (file_content.length + cluster_size e.vol - 1) / cluster_size e.vol +
  (if (dir_find file_name e.root_dir).isNone ∧ (dir_place empty_slot e.root_dir).isNone
    then 1 else 0)

/-- The content fits the volume: its length fits the 32-bit `file_size` of a
directory entry, and the clusters that writing it allocates are free and within reach
of the scan for free clusters. -/
def fits (file_name file_content : List Nat) (e : Engine) : Prop :=
  file_content.length < 2 ^ 32 ∧
  clusters_needed file_name file_content e ≤ free_clusters_from e

instance (file_name file_content : List Nat) (e : Engine) :
    Decidable (fits file_name file_content e) := by
  unfold fits
  infer_instance

/-- An engine for evaluation: the volume of `engine4` with cluster 2 allocated to the
root directory, whose 16 slots are empty, and the other 3 clusters free. -/
def engine4_root : Engine :=
  { set_next 2 FAT32_EOF engine4 with
    free_cluster_count := 3, root_dir := List.replicate 16 empty_slot }

/-- The 8.3 name `abc.txt`, before case folding. -/
def name_abc_txt : List Nat := [97, 98, 99, 32, 32, 32, 32, 32, 116, 120, 116]

/-- A content of `n` bytes, none of them 0. -/
def sample_content (n : Nat) : List Nat := (List.range n).map (fun i => i % 251 + 1)

/-! ## audio.c: the playlist -/

/-- The `#define MAX_PLAYLIST_SIZE 32` of audio.c. -/
def MAX_PLAYLIST_SIZE : Int := 32

/-- The value an `int` expression has once stored in a `short` (16 bits, two's
complement), as `playlist_size++` and `playlist_index++` do. -/
def toShort (x : Int) : Int := (x + 32768) % 65536 - 32768

/-- The constant of Globals.h that audio.c uses. The header is not among the sources,
so the functions below take it as a parameter. -/
structure Globals where
  MAX_FILENAME_SIZE : Nat

/-- The character that ends a C string. -/
def NUL : Char := Char.ofNat 0

/-- The number of cells of `static char playlist[MAX_FILENAME_SIZE][MAX_PLAYLIST_SIZE]`:
`MAX_FILENAME_SIZE` rows of `MAX_PLAYLIST_SIZE` characters each. -/
def playlist_cells (G : Globals) : Int := G.MAX_FILENAME_SIZE * MAX_PLAYLIST_SIZE

/-- The offset, counted in cells from `playlist[0][0]`, at which the row `playlist[i]`
starts. -/
def row_offset (i : Int) : Int := MAX_PLAYLIST_SIZE * i

/-- The cell at offset `off` from `playlist[0][0]` belongs to the array. -/
def in_playlist (G : Globals) (off : Int) : Prop := 0 ≤ off ∧ off < playlist_cells G

instance (G : Globals) (off : Int) : Decidable (in_playlist G off) := by
  unfold in_playlist
  infer_instance

/-- The file-scope variables of audio.c. `playlist off` is the cell of the character
array `playlist` at offset `off` from `playlist[0][0]`, so that `playlist[i][j]` is
`playlist (32 * i + j)`; only the offsets below `playlist_cells` belong to the array.
`requested` lists, oldest first, the C strings at the pointers handed to
`request_to_play_mp3_file` (declared in VS1053.h), `none` where the array holds no
terminated string at the pointer. `out_of_bounds` tells that some `sprintf` of
`play_mp3` has written outside the array: C leaves the behaviour of the program
undefined from then on, and the other fields then say what the statements of audio.c
compute on their own variables only. The debug output of `PRINTF` is not part of the
state. -/
structure Audio where
  playlist_empty : Bool
  playlist : Int → Char
  playlist_size : Int
  playlist_index : Int
  requested : List (Option String)
  out_of_bounds : Bool

/-- The variables as their initialisers leave them: `playlist_empty = true`, a
zeroed `playlist`, `playlist_size = 0`, `playlist_index = 0`. -/
def Audio.init : Audio :=
  { playlist_empty := true, playlist := fun _ => NUL, playlist_size := 0,
    playlist_index := 0, requested := [], out_of_bounds := false }

/-- The characters a `%s` conversion copies from a C string: those before its
terminator. -/
def c_chars (str : String) : List Char := str.toList.takeWhile (fun c => decide (c ≠ NUL))

/-- The characters `sprintf` produces in `play_mp3`: format `"%s%s.mp3"` when
`fileset` is not NULL, `"%s.mp3"` otherwise. -/
def mp3_chars (fileset : Option String) (mp3 : String) : List Char :=
  match fileset with
  | some f => c_chars f ++ c_chars mp3 ++ ".mp3".toList
  | none => c_chars mp3 ++ ".mp3".toList

/-- The name `sprintf` produces in `play_mp3`, as a string. -/
def mp3_name (fileset : Option String) (mp3 : String) : String :=
  String.mk (mp3_chars fileset mp3)

/-- The array after the characters `cs` have been written to the cells `off`,
`off + 1`, ... in turn, as far as these cells belong to the array: a string longer than
its row runs into the next row. -/
def store_chars (G : Globals) (cells : Int → Char) (off : Int) (cs : List Char) :
    Int → Char :=
  fun j =>
    if off ≤ j ∧ j < off + cs.length ∧ in_playlist G j then cs.getD (j - off).toNat NUL
    else cells j

/-- The characters `cs` and the terminator that follows them, written from offset
`off` on, all lie inside the array. -/
def fits_playlist (G : Globals) (off : Int) (cs : List Char) : Prop :=
  0 ≤ off ∧ off + cs.length + 1 ≤ playlist_cells G

instance (G : Globals) (off : Int) (cs : List Char) :
    Decidable (fits_playlist G off cs) := by
  unfold fits_playlist
  infer_instance

/-- The characters from offset `off` up to the first `NUL`, read from at most `fuel`
cells; `none` when none of these cells holds `NUL`. -/
def read_chars (cells : Int → Char) : Nat → Int → Option (List Char)
  | 0, _ => none
  | fuel + 1, off =>
    if cells off = NUL then some []
    else (read_chars cells fuel (off + 1)).map (fun cs => cells off :: cs)

/-- The C string at the pointer `playlist[i]`, as a callee reads it: the characters
from the start of row `i` up to the first `NUL`; `none` when row `i` is not a row of the
array or no `NUL` follows before the end of the array. -/
def row_string (G : Globals) (cells : Int → Char) (i : Int) : Option String :=
  if 0 ≤ i then
    (read_chars cells (playlist_cells G - row_offset i).toNat (row_offset i)).map String.mk
  else none

/-- The function `play_mp3` of audio.c; `none` stands for a NULL pointer. The call
`sprintf(playlist[playlist_size - 1], ...)` writes the name and its terminator from the
start of row `playlist_size - 1` on. -/
def play_mp3 (G : Globals) (fileset mp3 : Option String) (s : Audio) : Bool × Audio :=
  match mp3 with
  | none => (false, s)
  | some m =>
    if s.playlist_size = MAX_PLAYLIST_SIZE then (false, s)
    else
      let size := toShort (s.playlist_size + 1)
      (true, { s with
        playlist_size := size
        playlist := store_chars G s.playlist (row_offset (size - 1))
          (mp3_chars fileset m ++ [NUL])
        out_of_bounds :=
          s.out_of_bounds ||
            !decide (fits_playlist G (row_offset (size - 1)) (mp3_chars fileset m))
        playlist_empty := false })

/-- The function `play_next_mp3` of audio.c. -/
def play_next_mp3 (G : Globals) (s : Audio) : Audio :=
  if s.playlist_empty = true then s
  else
    let index := toShort (s.playlist_index + 1)
    let requested := s.requested ++ [row_string G s.playlist s.playlist_index]
    if index = s.playlist_size then
      { s with requested := requested, playlist_empty := true,
               playlist_size := 0, playlist_index := 0 }
    else
      { s with requested := requested, playlist_index := index }

/-- Calls `play_mp3 fileset mp3` for each pair of `items` in turn; returns the list
of the calls' results and the final state. -/
def play_mp3_all (G : Globals) : List (Option String × String) → Audio → List Bool × Audio
  | [], s => ([], s)
  | (f, m) :: rest, s =>
    let r := play_mp3 G f (some m) s
    let rs := play_mp3_all G rest r.2
    (r.1 :: rs.1, rs.2)

/-- Calls `play_next_mp3` `n` times in a row. -/
def play_next_mp3_n (G : Globals) : Nat → Audio → Audio
  | 0, s => s
  | n + 1, s => play_next_mp3_n G n (play_next_mp3 G s)

/-- The playlist states reachable from the initial empty playlist by calls of
`play_mp3` and `play_next_mp3`. -/
inductive Reachable (G : Globals) : Audio → Prop where
  | init : Reachable G Audio.init
  | play (fileset mp3 : Option String) {s : Audio} :
      Reachable G s → Reachable G (play_mp3 G fileset mp3 s).2
  | next {s : Audio} : Reachable G s → Reachable G (play_next_mp3 G s)

/-- The C strings at the `k` rows of the array that start at row `i`. -/
def rowsFrom (G : Globals) (cells : Int → Char) : Int → Nat → List (Option String)
  | _, 0 => []
  | i, k + 1 => row_string G cells i :: rowsFrom G cells (i + 1) k

/-- A value of `MAX_FILENAME_SIZE` with which the array `playlist` has a row for each
of the `MAX_PLAYLIST_SIZE` names of a full playlist. -/
def globals32 : Globals := { MAX_FILENAME_SIZE := 32 }

/-- The playlist after 32 names have been queued into the initial playlist and
the first of them has been played. -/
def full_one_played : Audio :=
  play_next_mp3 globals32 (play_mp3_all globals32 (List.replicate 32 (none, "A")) Audio.init).2

/-- The value 13 for `MAX_FILENAME_SIZE`, the length that the comment above the
declaration of `playlist` gives for a file name. -/
def globals13 : Globals := { MAX_FILENAME_SIZE := 13 }

/-- The playlist after the name `A.mp3` has been queued `n` times into the initial
playlist. -/
def queued_A (G : Globals) (n : Nat) : Audio :=
  (play_mp3_all G (List.replicate n (none, "A")) Audio.init).2

/-- A playlist state whose `playlist_size` is the largest `short`. -/
def audio_size_max : Audio :=
  { Audio.init with playlist_size := 32767, playlist_empty := false }

/-- A file name of 24 characters. -/
def name24 : String := "AAAAAAAAAAAAAAAAAAAAAAAA"

/-- A file name of 28 characters. -/
def name28 : String := "AAAAAAAAAAAAAAAAAAAAAAAAAAAA"

/-! ## io.c: the line editor -/

/-- The constants and macros of io.h that `get_line` and its helpers use. The header
is not among the sources, so the functions below take them as a parameter. Values of
type `char` are numbers. -/
structure IoMacros where
  MAX_BUF_SIZE : Nat
  NO_DOTS : Nat
  END_OF_TEXT : Nat
  GET_CELL_PATTERN : Nat → Nat
  GET_CELL_CONTROL : Nat → Nat

/-- What the line editor asks of the audio code and of the mode switcher:
`play_mp3(lang_fileset, name)`, `play_glyph_by_pattern(pattern)`, `quit_mode()`. -/
inductive IoEvent where
  | play_mp3_lang (name : String)
  | play_glyph_by_pattern (pattern : Nat)
  | quit_mode
deriving DecidableEq, Repr

/-- The variables of io.c that `get_line` reads and writes: the buffer `io_line`
(cell `i` is `io_line[i]`), the `unsigned int io_line_cell_index`, and the list,
oldest first, of the calls made to the audio code and to `quit_mode`. -/
structure LineEditor where
  io_line : Nat → Nat
  io_line_cell_index : Nat
  events : List IoEvent

/-- The buffer `line` after `line[i] = v`. -/
def setCell (line : Nat → Nat) (i v : Nat) : Nat → Nat :=
  fun j => if j = i then v else line j

/-- The function `io_line_next_cell` of io.c; `io_line_cell_index` is a 16 bit
`unsigned int`. -/
def io_line_next_cell (M : IoMacros) (s : LineEditor) : LineEditor :=
  let s1 : LineEditor :=
    if (s.io_line_cell_index + 2) % 65536 < M.MAX_BUF_SIZE then
      { s with io_line_cell_index := (s.io_line_cell_index + 1) % 65536 }
    else
      { s with events := s.events ++ [.play_mp3_lang "LCEL"] }
  { s1 with events := s1.events ++ [.play_glyph_by_pattern (s1.io_line s1.io_line_cell_index)] }

/-- The function `io_line_prev_cell` of io.c. -/
def io_line_prev_cell (s : LineEditor) : LineEditor :=
  let s1 : LineEditor :=
    if s.io_line_cell_index > 0 then
      { s with io_line_cell_index := s.io_line_cell_index - 1 }
    else
      { s with events := s.events ++ [.play_mp3_lang "FCEL"] }
  { s1 with events := s1.events ++ [.play_glyph_by_pattern (s1.io_line s1.io_line_cell_index)] }

/-- The function `io_line_clear_cell` of io.c. -/
def io_line_clear_cell (M : IoMacros) (s : LineEditor) : LineEditor :=
  let s1 : LineEditor :=
    { s with io_line := setCell s.io_line s.io_line_cell_index M.NO_DOTS }
  { s1 with events := s1.events ++ [.play_glyph_by_pattern (s1.io_line s1.io_line_cell_index)] }

/-- The function `get_line` of io.c; `last_cell` is the value its call of
`get_cell()` returned. -/
def get_line (M : IoMacros) (last_cell : Nat) (s : LineEditor) : Bool × LineEditor :=
  let pattern := M.GET_CELL_PATTERN last_cell
  let control := M.GET_CELL_CONTROL last_cell
  if last_cell = M.NO_DOTS then (false, s)
  else
    let s1 : LineEditor :=
      { s with io_line := setCell s.io_line s.io_line_cell_index pattern }
    if control = 0b11 then
      let s2 := io_line_next_cell M s1
      let s3 : LineEditor :=
        { s2 with io_line := setCell s2.io_line s2.io_line_cell_index M.END_OF_TEXT }
      (true, { s3 with io_line_cell_index := 0 })
    else if control = 0b01 then (false, io_line_next_cell M s1)
    else if control = 0b10 then (false, io_line_prev_cell s1)
    else if control = 0b00 then (false, io_line_clear_cell M s1)
    else (false, { s1 with events := s1.events ++ [.quit_mode] })

/-- The index at which a call of `get_line` that takes the ENTER branch writes
`END_OF_TEXT`: the value of `io_line_cell_index` after `io_line_next_cell`. -/
def eot_index (M : IoMacros) (last_cell : Nat) (s : LineEditor) : Nat :=
  (io_line_next_cell M
    { s with io_line :=
        setCell s.io_line s.io_line_cell_index (M.GET_CELL_PATTERN last_cell) }
  ).io_line_cell_index

/-- The state after `get_line` has been called once for each cell of `cells`. -/
def get_line_all (M : IoMacros) : List Nat → LineEditor → LineEditor
  | [], s => s
  | c :: cs, s => get_line_all M cs (get_line M c s).2

/-- An instance of the macros for evaluation: a buffer of 4 cells, `NO_DOTS` 0,
`END_OF_TEXT` 255, the pattern in the low 6 bits of a cell and the control in its
2 most significant bits. -/
def macros4 : IoMacros :=
  { MAX_BUF_SIZE := 4, NO_DOTS := 0, END_OF_TEXT := 255,
    GET_CELL_PATTERN := fun c => c % 64, GET_CELL_CONTROL := fun c => c / 64 % 4 }

/-- An empty line with the first cell selected. -/
def LineEditor.init : LineEditor :=
  { io_line := fun _ => 0, io_line_cell_index := 0, events := [] }

/-! ## io.c: conversion of a line to glyphs -/

/-- The array `parsed` after `parsed[i] = v`; `none` is the NULL pointer. -/
def setParsed {G : Type} (parsed : Nat → Option G) (i : Nat) (v : Option G) :
    Nat → Option G :=
  fun j => if j = i then v else parsed j

/-- The `for` loop of `io_convert_line` from the point where its condition is
tested, with `i` the loop index, `io_line[i]` the current pattern and
`get_glyph_by_pattern` (declared in a header that is not among the sources) the
parameter `glyph`. The result is the value that `io_convert_line` returns together
with `io_parsed`. `fuel` is the number of cells of `io_line` from index `i` on: a
loop that leaves the buffer has no result. -/
def io_convert_loop {G : Type} (M : IoMacros) (glyph : Nat → Option G)
    (io_line : Nat → Nat) :
    Nat → Nat → (Nat → Option G) → Option (Bool × (Nat → Option G))
  | 0, _, _ => none
  | fuel + 1, i, io_parsed =>
    if io_line i = M.END_OF_TEXT then some (true, setParsed io_parsed i none)
    else
      match glyph (io_line i) with
      | none => some (false, io_parsed)
      | some g => io_convert_loop M glyph io_line fuel (i + 1) (setParsed io_parsed i (some g))

/-- The function `io_convert_line` of io.c, on a buffer `io_line` of `MAX_BUF_SIZE`
cells. -/
def io_convert_line {G : Type} (M : IoMacros) (glyph : Nat → Option G)
    (io_line : Nat → Nat) (io_parsed : Nat → Option G) :
    Option (Bool × (Nat → Option G)) :=
  io_convert_loop M glyph io_line M.MAX_BUF_SIZE 0 io_parsed

/-- A glyph table for evaluation: every pattern but the empty one has a glyph,
named by the pattern itself. -/
def glyph_nonzero (pattern : Nat) : Option Nat :=
  if pattern = 0 then none else some pattern

/-- A line for evaluation: the patterns 1 and 2, then `END_OF_TEXT` (255). -/
def line_1_2 (i : Nat) : Nat :=
  if i = 0 then 1 else if i = 1 then 2 else if i = 2 then 255 else 0

/-! ## io.c: dialogs -/

/-- The constants and macros of io.h and of the other headers that `create_dialog` and
its helpers use; these headers are not among the sources, so the functions below take
them as a parameter. The dot buttons are the characters `'1'` to `'6'`, 49 to 54. -/
structure DialogMacros where
  NO_DOTS : Nat
  ENTER : Nat
  CANCEL : Nat
  LEFT : Nat
  RIGHT : Nat
  ENTER_CANCEL : Nat
  LEFT_RIGHT : Nat
  MAX_INCORRECT_TRIES : Int
  CHARTOINT : Nat → Nat

/-- What a dialog asks of the audio code and of the mode switcher: `play_dot(io_dot)`,
`play_mp3(mode_fileset, prompt)`, `play_mp3(lang_fileset, name)`, `quit_mode()`. -/
inductive DialogEvent where
  | play_dot (dot : Nat)
  | play_mp3_mode (prompt : String)
  | play_mp3_lang (name : String)
  | quit_mode
deriving DecidableEq, Repr

/-- The variables of io.c that `create_dialog` reads and writes: the pending button
`io_dot`, the dialog state variables, `io_dialog_dots_enabled[i]` for `i` from 0 to 5,
the 16 bit `int io_dialog_incorrect_tries`, and the list, oldest first, of the calls
made to the audio code and to `quit_mode`. The debug output is not part of the
state. -/
structure Dialog where
  io_dot : Nat
  io_dialog_initialised : Bool
  io_dialog_dots_enabled : Nat → Bool
  io_dialog_enter_cancel_enabled : Bool
  io_dialog_left_right_enabled : Bool
  io_dialog_incorrect_tries : Int
  events : List DialogEvent

/-- The array `flags` after `flags[i] = v`. -/
def setFlag (flags : Nat → Bool) (i : Nat) (v : Bool) : Nat → Bool :=
  fun j => if j = i then v else flags j

/-- The function `get_dot` of io.c: it returns the current dot and the state in
which `io_dot` is `NO_DOTS`. -/
def get_dot (D : DialogMacros) (s : Dialog) : Nat × Dialog :=
  (s.io_dot, { s with events := s.events ++ [.play_dot s.io_dot], io_dot := D.NO_DOTS })

/-- The loop `for (int i = 0; i < 6; i++) io_dialog_dots_enabled[i] = false;` of
`io_dialog_reset`, after `k` rounds. -/
def clear_dots : Nat → (Nat → Bool) → (Nat → Bool)
  | 0, flags => flags
  | k + 1, flags => setFlag (clear_dots k flags) k false

/-- The function `io_dialog_reset` of io.c. -/
def io_dialog_reset (s : Dialog) : Dialog :=
  { s with
    io_dialog_dots_enabled := clear_dots 6 s.io_dialog_dots_enabled
    io_dialog_enter_cancel_enabled := false
    io_dialog_left_right_enabled := false
    io_dialog_incorrect_tries := -1
    io_dialog_initialised := false }

/-- The loop of `io_dialog_init` that enables the dots, after `k` rounds: round `i`
sets `io_dialog_dots_enabled[i]` when `(control_mask & (1 << i)) != 0`. -/
def enable_dots (control_mask : Nat) : Nat → (Nat → Bool) → (Nat → Bool)
  | 0, flags => flags
  | k + 1, flags =>
    if control_mask &&& (1 <<< k) ≠ 0 then setFlag (enable_dots control_mask k flags) k true
    else enable_dots control_mask k flags

/-- The function `io_dialog_init` of io.c; `control_mask` is the bit pattern of the
`char` argument. -/
def io_dialog_init (D : DialogMacros) (control_mask : Nat) (s : Dialog) : Dialog :=
  let s1 := io_dialog_reset s
  { s1 with
    io_dialog_dots_enabled := enable_dots control_mask 6 s1.io_dialog_dots_enabled
    io_dialog_left_right_enabled :=
      if control_mask &&& D.LEFT_RIGHT = D.LEFT_RIGHT then true
      else s1.io_dialog_left_right_enabled
    io_dialog_enter_cancel_enabled :=
      if control_mask &&& D.ENTER_CANCEL = D.ENTER_CANCEL then true
      else s1.io_dialog_enter_cancel_enabled
    io_dialog_initialised := true }

/-- The function `io_dialog_error` of io.c. -/
def io_dialog_error (D : DialogMacros) (s : Dialog) : Dialog :=
  let tries := toShort (s.io_dialog_incorrect_tries + 1)
  { s with
    events := s.events ++ [.play_mp3_lang "INVP"]
    io_dialog_incorrect_tries := if D.MAX_INCORRECT_TRIES ≤ tries then -1 else tries }

/-- The state in which `create_dialog` returns a button: `io_dialog_initialised =
false`. -/
def dialog_done (s : Dialog) : Dialog :=
  { s with io_dialog_initialised := false }

/-- The part of `create_dialog` that follows the initialisation: the call of
`get_dot` and the `switch` on its result, whose cases are tested in the order in which
they are written. -/
def dialog_switch (D : DialogMacros) (prompt : String) (s1 : Dialog) : Nat × Dialog :=
  let last_dot := (get_dot D s1).1
  let s2 := (get_dot D s1).2
  if last_dot = D.NO_DOTS then
    if s2.io_dialog_incorrect_tries = -1 then
      (D.NO_DOTS, { s2 with
        events := s2.events ++ [.play_mp3_mode prompt]
        io_dialog_incorrect_tries := toShort (s2.io_dialog_incorrect_tries + 1) })
    else (D.NO_DOTS, s2)
  else if 49 ≤ last_dot ∧ last_dot ≤ 54 then
    if s2.io_dialog_dots_enabled (D.CHARTOINT last_dot - 1) = true then
      (last_dot, dialog_done s2)
    else (D.NO_DOTS, io_dialog_error D s2)
  else if last_dot = D.ENTER ∨ last_dot = D.CANCEL then
    if s2.io_dialog_enter_cancel_enabled = true then (last_dot, dialog_done s2)
    else (D.NO_DOTS, io_dialog_error D s2)
  else if last_dot = D.LEFT ∨ last_dot = D.RIGHT then
    if s2.io_dialog_left_right_enabled = true then (last_dot, dialog_done s2)
    else (D.NO_DOTS, io_dialog_error D s2)
  else (D.NO_DOTS, { s2 with events := s2.events ++ [.quit_mode] })

/-- The state in which `create_dialog` calls `get_dot`: the dialog is initialised
with `control_mask` first when `io_dialog_initialised` is false. -/
def dialog_ready (D : DialogMacros) (control_mask : Nat) (s : Dialog) : Dialog :=
  if s.io_dialog_initialised = false then io_dialog_init D control_mask s else s

/-- The function `create_dialog` of io.c. -/
def create_dialog (D : DialogMacros) (prompt : String) (control_mask : Nat)
    (s : Dialog) : Nat × Dialog :=
  dialog_switch D prompt (dialog_ready D control_mask s)

/-- The case labels of the `switch` of `create_dialog`, which are `NO_DOTS`, the
characters `'1'` to `'6'`, `ENTER`, `CANCEL`, `LEFT` and `RIGHT`, are distinct, as C
requires of a `switch` that compiles. -/
def DialogMacros.labels_distinct (D : DialogMacros) : Prop :=
  (D.NO_DOTS < 49 ∨ 54 < D.NO_DOTS) ∧ (D.ENTER < 49 ∨ 54 < D.ENTER) ∧
  (D.CANCEL < 49 ∨ 54 < D.CANCEL) ∧ (D.LEFT < 49 ∨ 54 < D.LEFT) ∧
  (D.RIGHT < 49 ∨ 54 < D.RIGHT) ∧
  D.NO_DOTS ≠ D.ENTER ∧ D.NO_DOTS ≠ D.CANCEL ∧ D.NO_DOTS ≠ D.LEFT ∧
  D.NO_DOTS ≠ D.RIGHT ∧ D.ENTER ≠ D.CANCEL ∧ D.ENTER ≠ D.LEFT ∧ D.ENTER ≠ D.RIGHT ∧
  D.CANCEL ≠ D.LEFT ∧ D.CANCEL ≠ D.RIGHT ∧ D.LEFT ≠ D.RIGHT

instance (D : DialogMacros) : Decidable D.labels_distinct := by
  unfold DialogMacros.labels_distinct
  infer_instance

/-- The value `b` is one of the buttons of a dialog: a dot `'1'` to `'6'`, `ENTER`,
`CANCEL`, `LEFT` or `RIGHT`. -/
def is_button (D : DialogMacros) (b : Nat) : Prop :=
  (49 ≤ b ∧ b ≤ 54) ∨ b = D.ENTER ∨ b = D.CANCEL ∨ b = D.LEFT ∨ b = D.RIGHT

instance (D : DialogMacros) (b : Nat) : Decidable (is_button D b) := by
  unfold is_button
  infer_instance

/-- The button `b` is enabled by the control mask: the dot `i` (the character
`'0' + i`) when bit `i - 1` of the mask is set, `ENTER` and `CANCEL` when all bits of
`ENTER_CANCEL` are set, `LEFT` and `RIGHT` when all bits of `LEFT_RIGHT` are set. -/
def button_enabled (D : DialogMacros) (control_mask b : Nat) : Prop :=
  (49 ≤ b ∧ b ≤ 54 ∧ control_mask.testBit (b - 49) = true) ∨
  ((b = D.ENTER ∨ b = D.CANCEL) ∧ control_mask &&& D.ENTER_CANCEL = D.ENTER_CANCEL) ∨
  ((b = D.LEFT ∨ b = D.RIGHT) ∧ control_mask &&& D.LEFT_RIGHT = D.LEFT_RIGHT)

instance (D : DialogMacros) (control_mask b : Nat) :
    Decidable (button_enabled D control_mask b) := by
  unfold button_enabled
  infer_instance

/-- The dialog is initialised and its flags are those that `io_dialog_init` sets for
`control_mask`. -/
def Dialog.initialised_with (D : DialogMacros) (control_mask : Nat) (s : Dialog) : Prop :=
  s.io_dialog_initialised = true ∧
  (∀ i, i < 6 → s.io_dialog_dots_enabled i = control_mask.testBit i) ∧
  s.io_dialog_enter_cancel_enabled
    = decide (control_mask &&& D.ENTER_CANCEL = D.ENTER_CANCEL) ∧
  s.io_dialog_left_right_enabled
    = decide (control_mask &&& D.LEFT_RIGHT = D.LEFT_RIGHT)

instance (D : DialogMacros) (control_mask : Nat) (s : Dialog) :
    Decidable (s.initialised_with D control_mask) := by
  unfold Dialog.initialised_with
  infer_instance

/-- The value of `io_dialog_incorrect_tries` with which a call of `create_dialog`
treats the pending button: -1 when the call initialises the dialog first. -/
def Dialog.tries_at_call (s : Dialog) : Int :=
  if s.io_dialog_initialised = false then -1 else s.io_dialog_incorrect_tries

/-- The state after the button `b` has been pressed: `io_dot = b`. -/
def with_dot (b : Nat) (s : Dialog) : Dialog :=
  { s with io_dot := b }

/-- The call `create_dialog(prompt, control_mask)` made when the button `b` has just
been pressed, that is with `io_dot = b`. -/
def press (D : DialogMacros) (prompt : String) (control_mask b : Nat) (s : Dialog) :
    Nat × Dialog :=
  create_dialog D prompt control_mask (with_dot b s)

/-- An instance of the macros for evaluation: `NO_DOTS` 0, the controls as the
letters `E`, `C`, `L`, `R`, the two most significant bits of a mask for
`ENTER_CANCEL` and `LEFT_RIGHT`, 3 incorrect tries, and `CHARTOINT(c)` as
`c - '0'`. -/
def dialog_macros : DialogMacros :=
  { NO_DOTS := 0, ENTER := 69, CANCEL := 67, LEFT := 76, RIGHT := 82,
    ENTER_CANCEL := 128, LEFT_RIGHT := 64, MAX_INCORRECT_TRIES := 3,
    CHARTOINT := fun c => c - 48 }

/-- The dialog variables as their initialisers leave them. -/
def Dialog.init : Dialog :=
  { io_dot := 0, io_dialog_initialised := false, io_dialog_dots_enabled := fun _ => false,
    io_dialog_enter_cancel_enabled := false, io_dialog_left_right_enabled := false,
    io_dialog_incorrect_tries := 0, events := [] }

/-- The dialog of `learn_letter_mode.c` with the mask `DOT_1 | DOT_2 | ENTER_CANCEL`
(here 131) after the disabled dot `'3'` has been pressed three times. -/
def dialog_three_errors : Dialog :=
  (press dialog_macros "MENU" 131 51
    (press dialog_macros "MENU" 131 51
      (press dialog_macros "MENU" 131 51 Dialog.init).2).2).2

/-! ## Theorems: structure layout -/

/-- C5: with the AVR type sizes and no padding, the MBR, boot-sector and FSInfo
structures are 512 bytes (`BUFFER_SIZE`) each, a directory entry is 32 bytes and a
partition record 16 bytes, so that the 64 bytes of `partition_data` hold 4 records;
both boot signatures are at offset 510 and the FSInfo members `structure_signature`,
`free_cluster_count`, `next_free_cluster`, `trail_signature` at 484, 488, 492, 508. -/
theorem structure_layout :
    sizeofStruct MBRinfo_Structure = 512 ∧
    sizeofStruct BS_Structure = 512 ∧
    sizeofStruct FSInfo_Structure = 512 ∧
    BUFFER_SIZE = 512 ∧
    sizeofStruct dir_Structure = 32 ∧
    sizeofStruct partitionInfo_Structure = 16 ∧
    (fieldOf "partition_data" MBRinfo_Structure).map Field.size
      = some (4 * sizeofStruct partitionInfo_Structure) ∧
    offsetOf "signature" MBRinfo_Structure = some 510 ∧
    offsetOf "boot_end_signature" BS_Structure = some 510 ∧
    offsetOf "structure_signature" FSInfo_Structure = some 484 ∧
    offsetOf "free_cluster_count" FSInfo_Structure = some 488 ∧
    offsetOf "next_free_cluster" FSInfo_Structure = some 492 ∧
    offsetOf "trail_signature" FSInfo_Structure = some 508 := by
  refine ⟨?_, ?_, ?_, ?_, ?_, ?_, ?_, ?_, ?_, ?_, ?_, ?_, ?_⟩ <;> decide

/-- C6: the constant `DIR_ENTRY_SIZE` is written `0x32`, which is 50, while a
directory entry (`dir_Structure`) occupies 32 bytes: the two differ. -/
theorem dir_entry_size_mismatch :
    DIR_ENTRY_SIZE = 50 ∧ sizeofStruct dir_Structure = 32 ∧
    DIR_ENTRY_SIZE ≠ sizeofStruct dir_Structure := by
  refine ⟨?_, ?_, ?_⟩ <;> decide

/-! ## Theorems: FAT entries -/

theorem read_write_le32 (buf : Nat → Nat) (off x : Nat) (hx : x < 2 ^ 32) :
    read_le32 (write_le32 buf off x) off = x := by
  have h1 : off + 1 ≠ off := by omega
  have h2 : off + 2 ≠ off := by omega
  have h3 : off + 3 ≠ off := by omega
  simp only [read_le32, write_le32, if_true, h1, h2, h3, if_false, Nat.add_right_cancel_iff,
    OfNat.ofNat_ne_one, Nat.reduceEqDiff, Nat.succ_ne_self]
  omega

theorem write_fat_copies_first (v : Volume) (sector : Nat) (buf : Nat → Nat)
    (disk : Nat → Nat → Nat) :
    ∀ n, 1 ≤ n → write_fat_copies v sector buf n disk sector = buf := by
  intro n
  induction n with
  | zero => intro h; omega
  | succ n ih =>
    intro _
    simp only [write_fat_copies, write_sector]
    by_cases hs : sector = sector + n * v.fat_size
    · rw [if_pos hs]
    · rw [if_neg hs]
      cases n with
      | zero => simp at hs
      | succ m => exact ih (by omega)

/-- C1: for every cluster number `c` and every 28-bit value `v`, on a volume that
has at least one FAT copy, `get_set_next_cluster(c, SET, v)` followed by
`get_set_next_cluster(c, GET, 0)` returns `v`, and the top 4 bits of the stored
32-bit entry are what they were before the write. -/
theorem fat_entry_round_trip (e : Engine) (c v : Nat)
    (hf : 1 ≤ e.vol.number_of_fats) (hv : v < 2 ^ 28) :
    (get_set_next_cluster c GET 0 (get_set_next_cluster c SET v e).2).1 = v ∧
    fat_entry_raw (get_set_next_cluster c SET v e).2 c / 2 ^ 28
      = fat_entry_raw e c / 2 ^ 28 := by
  have hvol : (get_set_next_cluster c SET v e).2.vol = e.vol := by
    simp [get_set_next_cluster, SET, GET]
  have hdisk : (get_set_next_cluster c SET v e).2.disk =
      write_fat_copies e.vol (fat_sector e.vol c)
        (write_le32 (e.disk (fat_sector e.vol c)) (fat_offset e.vol c)
          (fat_entry_raw e c / 2 ^ 28 * 2 ^ 28 + v % 2 ^ 28))
        e.vol.number_of_fats e.disk := by
    simp [get_set_next_cluster, SET, GET, fat_entry_raw]
  have hold : fat_entry_raw e c < 2 ^ 32 := by
    simp only [fat_entry_raw, read_le32]
    omega
  have hnew : fat_entry_raw e c / 2 ^ 28 * 2 ^ 28 + v % 2 ^ 28 < 2 ^ 32 := by
    omega
  have hraw : fat_entry_raw (get_set_next_cluster c SET v e).2 c
      = fat_entry_raw e c / 2 ^ 28 * 2 ^ 28 + v % 2 ^ 28 := by
    simp only [fat_entry_raw]
    rw [hvol, hdisk, write_fat_copies_first _ _ _ _ _ hf, read_write_le32 _ _ _ hnew]
    rfl
  refine ⟨?_, ?_⟩
  · have hget : (get_set_next_cluster c GET 0 (get_set_next_cluster c SET v e).2).1
        = fat_entry_raw (get_set_next_cluster c SET v e).2 c % 2 ^ 28 := by
      simp [get_set_next_cluster, GET, fat_entry_raw]
    rw [hget, hraw]
    omega
  · rw [hraw]
    omega

/-- Witness of `fat_entry_round_trip`: cluster 5 is linked to cluster 6 on a disk
whose bytes are all `0xff`. -/
theorem fat_entry_round_trip_witness :
    (1 ≤ engine_ff.vol.number_of_fats ∧ 6 < 2 ^ 28) ∧
    (get_set_next_cluster 5 GET 0 (get_set_next_cluster 5 SET 6 engine_ff).2).1 = 6 ∧
    fat_entry_raw (get_set_next_cluster 5 SET 6 engine_ff).2 5 / 2 ^ 28 = 15 :=
  ⟨⟨by decide, by decide⟩,
    (fat_entry_round_trip engine_ff 5 6 (by decide) (by decide)).1,
    (fat_entry_round_trip engine_ff 5 6 (by decide) (by decide)).2.trans (by decide)⟩

/-! ## Theorems: the free-cluster counter -/

theorem set_next_free_cluster_count (c v : Nat) (e : Engine) :
    (set_next c v e).free_cluster_count = e.free_cluster_count := by
  simp [set_next, get_set_next_cluster, SET, GET]

theorem allocate_and_link_count (tail : Nat) (e : Engine) (c : Nat) (e1 : Engine)
    (h : allocate_and_link tail e = .ok (c, e1)) :
    e1.free_cluster_count = (e.free_cluster_count + (2 ^ 32 - 1)) % 2 ^ 32 := by
  unfold allocate_and_link at h
  split at h
  · cases h
  · simp only [Except.ok.injEq, Prod.mk.injEq] at h
    obtain ⟨-, h⟩ := h
    subst h
    by_cases ht : 2 ≤ tail <;>
      simp [free_memory_update, get_set_free_cluster, REMOVE, ADD, GET, SET, TOTAL_FREE,
        set_next_free_cluster_count, ht]

theorem free_cluster_counter (c : Nat) (e : Engine) :
    (free_cluster c e).free_cluster_count = (e.free_cluster_count + 1) % 2 ^ 32 := by
  simp [free_cluster, free_memory_update, get_set_free_cluster, ADD, GET, SET, TOTAL_FREE,
    set_next_free_cluster_count]

theorem run_ops_count (ops : List ClusterOp) :
    ∀ e : Engine, e.free_cluster_count < 2 ^ 32 →
      ((run_ops ops e).engine.free_cluster_count : Int)
        = ((e.free_cluster_count : Int) - (run_ops ops e).allocated
            + (run_ops ops e).freed) % 2 ^ 32 := by
  induction ops with
  | nil =>
    intro e h
    simp only [run_ops]
    omega
  | cons op ops ih =>
    intro e h
    cases op with
    | alloc tail =>
      simp only [run_ops]
      cases hal : allocate_and_link tail e with
      | error err => simpa using ih e h
      | ok p =>
        obtain ⟨c, e1⟩ := p
        have hc := allocate_and_link_count tail e c e1 hal
        have h1 : e1.free_cluster_count < 2 ^ 32 := by
          rw [hc]; exact Nat.mod_lt _ (by norm_num)
        have := ih e1 h1
        simp only
        rw [this, hc]
        push_cast
        omega
    | free c =>
      simp only [run_ops]
      have hc := free_cluster_counter c e
      have h1 : (free_cluster c e).free_cluster_count < 2 ^ 32 := by
        rw [hc]; exact Nat.mod_lt _ (by norm_num)
      have := ih (free_cluster c e) h1
      rw [this, hc]
      push_cast
      omega

/-- C4: after any sequence of requests that allocates `k` clusters and frees `j`,
the 32-bit `free_cluster_count` that `free_memory_update` keeps through
`get_set_free_cluster(TOTAL_FREE, ...)` is its initial value minus `k` plus `j`,
modulo 2^32; it is exactly `initial - k + j` whenever that number is within the
counter's range, as it is for requests within the volume's capacity. -/
theorem free_cluster_count_after_ops (ops : List ClusterOp) (e : Engine)
    (h : e.free_cluster_count < 2 ^ 32) :
    (((get_set_free_cluster TOTAL_FREE GET 0 (run_ops ops e).engine).1 : Int)
        = ((e.free_cluster_count : Int) - (run_ops ops e).allocated
            + (run_ops ops e).freed) % 2 ^ 32) ∧
    (0 ≤ (e.free_cluster_count : Int) - (run_ops ops e).allocated
          + (run_ops ops e).freed →
      (e.free_cluster_count : Int) - (run_ops ops e).allocated
          + (run_ops ops e).freed < 2 ^ 32 →
      ((get_set_free_cluster TOTAL_FREE GET 0 (run_ops ops e).engine).1 : Int)
        = (e.free_cluster_count : Int) - (run_ops ops e).allocated
            + (run_ops ops e).freed) := by
  have hget : (get_set_free_cluster TOTAL_FREE GET 0 (run_ops ops e).engine).1
      = (run_ops ops e).engine.free_cluster_count := by
    simp [get_set_free_cluster, GET, TOTAL_FREE]
  rw [hget]
  have := run_ops_count ops e h
  refine ⟨this, ?_⟩
  intro h0 h1
  rw [this]
  exact Int.emod_eq_of_lt h0 h1

/-- Witness of `free_cluster_count_after_ops`: on a volume with 4 free clusters, two
clusters are allocated and the first of them is freed again, which leaves 3. -/
theorem free_cluster_count_after_ops_witness :
    engine4.free_cluster_count < 2 ^ 32 ∧
    (run_ops [.alloc 0, .alloc 2, .free 2] engine4).allocated = 2 ∧
    (run_ops [.alloc 0, .alloc 2, .free 2] engine4).freed = 1 ∧
    ((get_set_free_cluster TOTAL_FREE GET 0
        (run_ops [.alloc 0, .alloc 2, .free 2] engine4).engine).1 : Int) = 3 :=
  ⟨by decide, by decide, by decide,
    ((free_cluster_count_after_ops [.alloc 0, .alloc 2, .free 2] engine4
      (by decide)).2 (by decide) (by decide)).trans (by decide)⟩

/-! ## Theorems: the FAT as a table of links -/

theorem read_le32_write_le32_other (buf : Nat → Nat) (off off1 x : Nat)
    (h : off1 + 3 < off ∨ off + 3 < off1) :
    read_le32 (write_le32 buf off x) off1 = read_le32 buf off1 := by
  have a0 : off1 ≠ off := by omega
  have a1 : off1 ≠ off + 1 := by omega
  have a2 : off1 ≠ off + 2 := by omega
  have a3 : off1 ≠ off + 3 := by omega
  have b0 : off1 + 1 ≠ off := by omega
  have b1 : off1 + 1 ≠ off + 1 := by omega
  have b2 : off1 + 1 ≠ off + 2 := by omega
  have b3 : off1 + 1 ≠ off + 3 := by omega
  have c0 : off1 + 2 ≠ off := by omega
  have c1 : off1 + 2 ≠ off + 1 := by omega
  have c2 : off1 + 2 ≠ off + 2 := by omega
  have c3 : off1 + 2 ≠ off + 3 := by omega
  have d0 : off1 + 3 ≠ off := by omega
  have d1 : off1 + 3 ≠ off + 1 := by omega
  have d2 : off1 + 3 ≠ off + 2 := by omega
  have d3 : off1 + 3 ≠ off + 3 := by omega
  simp only [read_le32, write_le32, if_neg a0, if_neg a1, if_neg a2, if_neg a3,
    if_neg b0, if_neg b1, if_neg b2, if_neg b3, if_neg c0, if_neg c1, if_neg c2,
    if_neg c3, if_neg d0, if_neg d1, if_neg d2, if_neg d3]

theorem write_fat_copies_other (v : Volume) (sector : Nat) (buf : Nat → Nat)
    (disk : Nat → Nat → Nat) (s1 : Nat) :
    ∀ n, (∀ i, i < n → s1 ≠ sector + i * v.fat_size) →
      write_fat_copies v sector buf n disk s1 = disk s1 := by
  intro n
  induction n with
  | zero => intro _; rfl
  | succ n ih =>
    intro h
    simp only [write_fat_copies, write_sector]
    rw [if_neg (h n (by omega))]
    exact ih (fun i hi => h i (by omega))

theorem next_cluster_eq (e : Engine) (c : Nat) :
    next_cluster e c = fat_entry_raw e c % 2 ^ 28 := by
  simp [next_cluster, get_set_next_cluster, GET, fat_entry_raw]

theorem set_next_vol (c v : Nat) (e : Engine) : (set_next c v e).vol = e.vol := by
  simp [set_next, get_set_next_cluster, SET, GET]

theorem set_next_clusters (c v : Nat) (e : Engine) :
    (set_next c v e).clusters = e.clusters := by
  simp [set_next, get_set_next_cluster, SET, GET]

theorem set_next_root_dir (c v : Nat) (e : Engine) :
    (set_next c v e).root_dir = e.root_dir := by
  simp [set_next, get_set_next_cluster, SET, GET]

theorem set_next_next_free_cluster (c v : Nat) (e : Engine) :
    (set_next c v e).next_free_cluster = e.next_free_cluster := by
  simp [set_next, get_set_next_cluster, SET, GET]

theorem set_next_disk (c v : Nat) (e : Engine) :
    (set_next c v e).disk =
      write_fat_copies e.vol (fat_sector e.vol c)
        (write_le32 (e.disk (fat_sector e.vol c)) (fat_offset e.vol c)
          (fat_entry_raw e c / 2 ^ 28 * 2 ^ 28 + v % 2 ^ 28))
        e.vol.number_of_fats e.disk := by
  simp [set_next, get_set_next_cluster, SET, GET, fat_entry_raw]

theorem fat_entry_raw_lt (e : Engine) (c : Nat) : fat_entry_raw e c < 2 ^ 32 := by
  simp only [fat_entry_raw, read_le32]
  omega

theorem next_cluster_set_next_self (c v : Nat) (e : Engine)
    (hf : 1 ≤ e.vol.number_of_fats) :
    next_cluster (set_next c v e) c = v % 2 ^ 28 := by
  have hold := fat_entry_raw_lt e c
  rw [next_cluster_eq]
  simp only [fat_entry_raw]
  rw [set_next_vol, set_next_disk, write_fat_copies_first _ _ _ _ _ hf,
    read_write_le32 _ _ _ (by omega)]
  omega

theorem next_cluster_set_next_other (c v c1 : Nat) (e : Engine)
    (hb : e.vol.bytes_per_sector = 512) (hne : c1 ≠ c)
    (hin : c1 * 4 < e.vol.fat_size * 512) :
    next_cluster (set_next c v e) c1 = next_cluster e c1 := by
  rw [next_cluster_eq, next_cluster_eq]
  congr 1
  simp only [fat_entry_raw]
  rw [set_next_vol, set_next_disk]
  by_cases hs : fat_sector e.vol c1 = fat_sector e.vol c
  · rw [hs]
    cases hn : e.vol.number_of_fats with
    | zero => rfl
    | succ n =>
      rw [write_fat_copies_first _ _ _ _ _ (by omega)]
      apply read_le32_write_le32_other
      simp only [fat_sector, fat_offset, hb] at hs ⊢
      omega
  · rw [write_fat_copies_other]
    intro i _
    rcases Nat.eq_zero_or_pos i with h0 | hpos
    · subst h0
      simpa using hs
    · have hmul : e.vol.fat_size ≤ i * e.vol.fat_size :=
        Nat.le_mul_of_pos_left _ hpos
      simp only [fat_sector, hb]
      omega

theorem free_memory_update_disk (flag size : Nat) (e : Engine) :
    (free_memory_update flag size e).disk = e.disk := by
  unfold free_memory_update
  by_cases h : flag = ADD <;> simp [h, get_set_free_cluster, GET, SET, TOTAL_FREE]

theorem free_memory_update_vol (flag size : Nat) (e : Engine) :
    (free_memory_update flag size e).vol = e.vol := by
  unfold free_memory_update
  by_cases h : flag = ADD <;> simp [h, get_set_free_cluster, GET, SET, TOTAL_FREE]

theorem free_memory_update_clusters (flag size : Nat) (e : Engine) :
    (free_memory_update flag size e).clusters = e.clusters := by
  unfold free_memory_update
  by_cases h : flag = ADD <;> simp [h, get_set_free_cluster, GET, SET, TOTAL_FREE]

theorem free_memory_update_root_dir (flag size : Nat) (e : Engine) :
    (free_memory_update flag size e).root_dir = e.root_dir := by
  unfold free_memory_update
  by_cases h : flag = ADD <;> simp [h, get_set_free_cluster, GET, SET, TOTAL_FREE]

theorem free_memory_update_next_free_cluster (flag size : Nat) (e : Engine) :
    (free_memory_update flag size e).next_free_cluster = e.next_free_cluster := by
  unfold free_memory_update
  by_cases h : flag = ADD <;> simp [h, get_set_free_cluster, GET, SET, TOTAL_FREE]

theorem next_cluster_congr (e e1 : Engine) (hv : e1.vol = e.vol) (hd : e1.disk = e.disk)
    (c : Nat) : next_cluster e1 c = next_cluster e c := by
  simp [next_cluster, get_set_next_cluster, GET, hv, hd]

theorem next_cluster_free_memory_update (flag size : Nat) (e : Engine) (c : Nat) :
    next_cluster (free_memory_update flag size e) c = next_cluster e c :=
  next_cluster_congr _ _ (free_memory_update_vol _ _ _) (free_memory_update_disk _ _ _) c

/-! ## Theorems: allocation -/

theorem filter_length_remove (L : List Nat) (p q : Nat → Bool) (c : Nat)
    (hnd : L.Nodup) (hc : c ∈ L) (hp : p c = true) (hq : q c = false)
    (hsame : ∀ x ∈ L, x ≠ c → q x = p x) :
    (L.filter q).length + 1 = (L.filter p).length := by
  induction L with
  | nil => simp at hc
  | cons a L ih =>
    rw [List.nodup_cons] at hnd
    obtain ⟨ha, hnd⟩ := hnd
    by_cases hac : a = c
    · subst hac
      have hrest : L.filter q = L.filter p := by
        apply List.filter_congr
        intro x hx
        exact hsame x (List.mem_cons_of_mem _ hx) (by rintro rfl; exact ha hx)
      simp [List.filter_cons, hp, hq, hrest]
    · have hcL : c ∈ L := by
        rcases List.mem_cons.mp hc with h | h
        · exact absurd h.symm hac
        · exact h
      have hqa : q a = p a := hsame a (List.mem_cons_self _ _) hac
      have := ih hnd hcL (fun x hx hxc => hsame x (List.mem_cons_of_mem _ hx) hxc)
      cases hpa : p a <;> simp [List.filter_cons, hqa, hpa] <;> omega

theorem filter_length_mono (L : List Nat) (p q : Nat → Bool)
    (h : ∀ x ∈ L, p x = true → q x = true) :
    (L.filter p).length ≤ (L.filter q).length := by
  induction L with
  | nil => simp
  | cons a L ih =>
    have := ih (fun x hx => h x (List.mem_cons_of_mem _ hx))
    have ha := h a (List.mem_cons_self _ _)
    cases hpa : p a <;> cases hqa : q a <;> simp [List.filter_cons, hpa, hqa] <;>
      first | omega | (rw [hpa] at ha; simp [hqa] at ha)

theorem scan_range_valid (v : Volume) (start c : Nat) (h : c ∈ scan_range v start) :
    valid_cluster v c := by
  simp only [scan_range, List.mem_range'_1] at h
  unfold valid_cluster
  split at h <;> omega

theorem scan_range_nodup (v : Volume) (start : Nat) : (scan_range v start).Nodup := by
  simp only [scan_range]
  exact List.nodup_range' _ _

theorem valid_cluster_in_fat (v : Volume) (hv : v.wf) (c : Nat) (h : valid_cluster v c) :
    c * 4 < v.fat_size * 512 := by
  obtain ⟨-, -, -, h4, -⟩ := hv
  unfold valid_cluster at h
  omega

/-- What a successful `allocate_and_link` does to the engine. -/
theorem allocate_and_link_ok (tail : Nat) (e : Engine) (hv : e.vol.wf) (c : Nat)
    (e1 : Engine) (h : allocate_and_link tail e = .ok (c, e1)) :
    c ∈ scan_range e.vol e.next_free_cluster ∧ next_cluster e c = 0 ∧
    e1.vol = e.vol ∧ e1.clusters = e.clusters ∧ e1.root_dir = e.root_dir ∧
    e1.next_free_cluster = e.next_free_cluster ∧
    next_cluster e1 c = FAT32_EOF ∧
    (2 ≤ tail → tail ≠ c → tail * 4 < e.vol.fat_size * 512 → next_cluster e1 tail = c) ∧
    (∀ c1, c1 ≠ c → (c1 ≠ tail ∨ tail < 2) → c1 * 4 < e.vol.fat_size * 512 →
      next_cluster e1 c1 = next_cluster e c1) := by
  obtain ⟨hb, -, hf, h4, h5⟩ := hv
  unfold allocate_and_link at h
  split at h
  · cases h
  · rename_i new hfind
    simp only [Except.ok.injEq, Prod.mk.injEq] at h
    obtain ⟨hnew, he1⟩ := h
    have hnew1 := hnew.symm
    subst hnew1
    have hhint : (get_set_free_cluster NEXT_FREE GET 0 e).1 = e.next_free_cluster := by
      simp [get_set_free_cluster, GET, NEXT_FREE, TOTAL_FREE]
    rw [hhint] at hfind
    unfold search_next_free_cluster at hfind
    have hmem := List.mem_of_find?_eq_some hfind
    have hfree : next_cluster e c = 0 := by
      simpa using List.find?_some hfind
    have hval := scan_range_valid _ _ _ hmem
    have hc28 : c % 2 ^ 28 = c := by
      unfold valid_cluster at hval
      exact Nat.mod_eq_of_lt (by omega)
    by_cases ht : 2 ≤ tail
    · rw [if_pos ht] at he1
      subst he1
      have hvol1 : (set_next tail c e).vol = e.vol := set_next_vol _ _ _
      refine ⟨hmem, hfree, ?_, ?_, ?_, ?_, ?_, ?_, ?_⟩
      · rw [free_memory_update_vol, set_next_vol, set_next_vol]
      · rw [free_memory_update_clusters, set_next_clusters, set_next_clusters]
      · rw [free_memory_update_root_dir, set_next_root_dir, set_next_root_dir]
      · rw [free_memory_update_next_free_cluster, set_next_next_free_cluster,
          set_next_next_free_cluster]
      · rw [next_cluster_free_memory_update,
          next_cluster_set_next_self _ _ _ (by rw [hvol1]; exact hf)]
        decide
      · intro _ hne hin
        rw [next_cluster_free_memory_update,
          next_cluster_set_next_other _ _ _ _ (by rw [hvol1]; exact hb) hne
            (by rw [hvol1]; exact hin),
          next_cluster_set_next_self _ _ _ hf, hc28]
      · intro c1 hne hne2 hin
        have hne2 : c1 ≠ tail := by
          rcases hne2 with h | h
          · exact h
          · omega
        rw [next_cluster_free_memory_update,
          next_cluster_set_next_other _ _ _ _ (by rw [hvol1]; exact hb) hne
            (by rw [hvol1]; exact hin),
          next_cluster_set_next_other _ _ _ _ hb hne2 hin]
    · rw [if_neg ht] at he1
      subst he1
      refine ⟨hmem, hfree, ?_, ?_, ?_, ?_, ?_, ?_, ?_⟩
      · rw [free_memory_update_vol, set_next_vol]
      · rw [free_memory_update_clusters, set_next_clusters]
      · rw [free_memory_update_root_dir, set_next_root_dir]
      · rw [free_memory_update_next_free_cluster, set_next_next_free_cluster]
      · rw [next_cluster_free_memory_update, next_cluster_set_next_self _ _ _ hf]
        decide
      · intro h2
        exact absurd h2 ht
      · intro c1 hne _ hin
        rw [next_cluster_free_memory_update,
          next_cluster_set_next_other _ _ _ _ hb hne hin]

theorem allocate_and_link_succeeds (tail : Nat) (e : Engine)
    (h : 1 ≤ free_clusters_from e) :
    ∃ c e1, allocate_and_link tail e = .ok (c, e1) := by
  have hhint : (get_set_free_cluster NEXT_FREE GET 0 e).1 = e.next_free_cluster := by
    simp [get_set_free_cluster, GET, NEXT_FREE, TOTAL_FREE]
  unfold allocate_and_link
  rw [hhint]
  cases hfind : search_next_free_cluster e.next_free_cluster e with
  | none =>
    exfalso
    unfold search_next_free_cluster at hfind
    rw [List.find?_eq_none] at hfind
    unfold free_clusters_from at h
    have : (scan_range e.vol e.next_free_cluster).filter
        (fun c => decide (next_cluster e c = 0)) = [] := by
      rw [List.filter_eq_nil_iff]
      exact hfind
    rw [this] at h
    simp at h
  | some c => exact ⟨c, _, rfl⟩

theorem allocate_and_link_free_count (tail : Nat) (e : Engine) (hv : e.vol.wf) (c : Nat)
    (e1 : Engine) (h : allocate_and_link tail e = .ok (c, e1))
    (ht : tail < 2 ∨ (valid_cluster e.vol tail ∧ next_cluster e tail ≠ 0)) :
    free_clusters_from e1 + 1 = free_clusters_from e := by
  obtain ⟨hmem, hfree, hvol, -, -, hhint, heof, htail, hother⟩ :=
    allocate_and_link_ok tail e hv c e1 h
  unfold free_clusters_from
  rw [hvol, hhint]
  apply filter_length_remove _ _ _ c (scan_range_nodup _ _) hmem
  · simpa using hfree
  · rw [heof]
    decide
  · intro x hx hxc
    have hxin := valid_cluster_in_fat _ hv x (scan_range_valid _ _ _ hx)
    by_cases hxt : x = tail
    · subst hxt
      rcases ht with ht | ⟨htv, htn⟩
      · rw [hother x hxc (Or.inr ht) hxin]
      · have h2 : 2 ≤ x := htv.1
        have hcv := scan_range_valid _ _ _ hmem
        have hc0 : c ≠ 0 := by
          unfold valid_cluster at hcv
          omega
        rw [htail h2 hxc hxin]
        simp [hc0, htn]
    · rw [hother x hxc (Or.inl hxt) hxin]

theorem valid_cluster_ne_zero (v : Volume) (c : Nat) (h : valid_cluster v c) : c ≠ 0 := by
  unfold valid_cluster at h
  omega

/-- What `allocate_chain` does when enough free clusters are within reach of the
scan: it succeeds, and the clusters that it returns were free, are distinct and are
linked into a chain that ends with `FAT32_EOF`; no other entry of the FAT changes but
that of `tail`. -/
theorem allocate_chain_spec :
    ∀ (n tail : Nat) (e : Engine), e.vol.wf →
      (tail < 2 ∨ (valid_cluster e.vol tail ∧ next_cluster e tail ≠ 0)) →
      n ≤ free_clusters_from e →
      ∃ cs e2, allocate_chain n tail e = .ok (cs, e2) ∧
        cs.length = n ∧
        (∀ c ∈ cs, valid_cluster e.vol c ∧ next_cluster e c = 0) ∧
        cs.Nodup ∧
        chain_links e2 cs ∧
        (∀ c ∈ cs, next_cluster e2 c ≠ 0) ∧
        (1 ≤ n → 2 ≤ tail → next_cluster e2 tail = cs.headD 0) ∧
        (∀ c1, c1 ∉ cs → (c1 ≠ tail ∨ tail < 2 ∨ n = 0) →
          c1 * 4 < e.vol.fat_size * 512 → next_cluster e2 c1 = next_cluster e c1) ∧
        e2.vol = e.vol ∧ e2.clusters = e.clusters ∧ e2.root_dir = e.root_dir ∧
        e2.next_free_cluster = e.next_free_cluster ∧
        free_clusters_from e2 + n = free_clusters_from e := by
  intro n
  induction n with
  | zero =>
    intro tail e _ _ _
    refine ⟨[], e, rfl, rfl, ?_, List.nodup_nil, trivial, ?_, ?_, ?_, rfl, rfl, rfl, rfl,
      rfl⟩
    · intro c hc; simp at hc
    · intro c hc; simp at hc
    · intro h; omega
    · intro c1 _ _ _; rfl
  | succ n ih =>
    intro tail e hv ht hfree
    obtain ⟨c, e1, hal⟩ := allocate_and_link_succeeds tail e (by omega)
    obtain ⟨hmem, hcfree, hvol, hclu, hdir, hhint, heof, htail, hother⟩ :=
      allocate_and_link_ok tail e hv c e1 hal
    have hcount := allocate_and_link_free_count tail e hv c e1 hal ht
    have hcval : valid_cluster e.vol c := scan_range_valid _ _ _ hmem
    have heofne : FAT32_EOF ≠ 0 := by decide
    have hv1 : e1.vol.wf := by rw [hvol]; exact hv
    obtain ⟨cs, e2, hrec, hlen, hfreecs, hnd, hlinks, hnz, htl, hframe, hvol2, hclu2,
        hdir2, hhint2, hcount2⟩ :=
      ih c e1 hv1 (Or.inr ⟨by rw [hvol]; exact hcval, by rw [heof]; exact heofne⟩)
        (by omega)
    rw [hvol] at hfreecs hframe
    have hcin := valid_cluster_in_fat _ hv c hcval
    have hc_notin : c ∉ cs := by
      intro hc
      have := (hfreecs c hc).2
      rw [heof] at this
      exact heofne this
    -- the entry of `tail` after the first allocation, when there is a tail
    have htail1 : 2 ≤ tail → next_cluster e1 tail = c ∧ tail ≠ c := by
      intro h2
      rcases ht with ht | ⟨htv, htn⟩
      · omega
      · have hne : tail ≠ c := by
          rintro rfl
          exact htn hcfree
        exact ⟨htail h2 hne (valid_cluster_in_fat _ hv tail htv), hne⟩
    have htail_notin : 2 ≤ tail → tail ∉ cs := by
      intro h2 hmemt
      have := (hfreecs tail hmemt).2
      rw [(htail1 h2).1] at this
      exact valid_cluster_ne_zero _ _ hcval this
    refine ⟨c :: cs, e2, ?_, ?_, ?_, ?_, ?_, ?_, ?_, ?_, ?_, ?_, ?_, ?_, ?_⟩
    · simp [allocate_chain, hal, hrec]
    · simp [hlen]
    · intro x hx
      rcases List.mem_cons.mp hx with rfl | hxcs
      · exact ⟨hcval, hcfree⟩
      · obtain ⟨hxv, hx0⟩ := hfreecs x hxcs
        refine ⟨hxv, ?_⟩
        have hxc : x ≠ c := fun h => hc_notin (h ▸ hxcs)
        have hxt : x ≠ tail ∨ tail < 2 := by
          by_cases h2 : 2 ≤ tail
          · exact Or.inl (fun h => htail_notin h2 (h ▸ hxcs))
          · right; omega
        rw [← hother x hxc hxt (valid_cluster_in_fat _ hv x hxv)]
        exact hx0
    · exact List.nodup_cons.mpr ⟨hc_notin, hnd⟩
    · cases cs with
      | nil =>
        have hn0 : n = 0 := by simpa using hlen.symm
        show next_cluster e2 c = FAT32_EOF
        rw [hframe c (by simp) (Or.inr (Or.inr hn0)) hcin, heof]
      | cons c1 rest =>
        have hn1 : 1 ≤ n := by
          rw [← hlen]; simp
        exact ⟨by simpa using htl hn1 hcval.1, hlinks⟩
    · intro x hx
      rcases List.mem_cons.mp hx with rfl | hx
      · cases cs with
        | nil =>
          have hn0 : n = 0 := by simpa using hlen.symm
          rw [hframe x (by simp) (Or.inr (Or.inr hn0)) hcin, heof]
          exact heofne
        | cons c1 rest =>
          have hn1 : 1 ≤ n := by
            rw [← hlen]; simp
          have := htl hn1 hcval.1
          simp only [List.headD_cons] at this
          rw [this]
          exact valid_cluster_ne_zero _ _ (hfreecs c1 (List.mem_cons_self _ _)).1
      · exact hnz x hx
    · intro _ h2
      obtain ⟨ht1, hne⟩ := htail1 h2
      rcases ht with ht | ⟨htv, -⟩
      · omega
      · simp only [List.headD_cons]
        rw [hframe tail (htail_notin h2) (Or.inl hne) (valid_cluster_in_fat _ hv tail htv),
          ht1]
    · intro c1 hc1 hcond hin
      have hc1c : c1 ≠ c := fun h => hc1 (h ▸ List.mem_cons_self _ _)
      have hc1cs : c1 ∉ cs := fun h => hc1 (List.mem_cons_of_mem _ h)
      have hcond1 : c1 ≠ tail ∨ tail < 2 := by
        rcases hcond with h | h | h
        · exact Or.inl h
        · exact Or.inr h
        · omega
      rw [hframe c1 hc1cs (Or.inl hc1c) hin, hother c1 hc1c hcond1 hin]
    · rw [hvol2, hvol]
    · rw [hclu2, hclu]
    · rw [hdir2, hdir]
    · rw [hhint2, hhint]
    · omega

theorem walk_chain_of_links (e : Engine) (hv : e.vol.wf) :
    ∀ (cs : List Nat) (fuel : Nat), cs ≠ [] →
      (∀ c ∈ cs, valid_cluster e.vol c) → chain_links e cs → cs.length ≤ fuel →
      walk_chain fuel (cs.headD 0) e = .ok cs := by
  intro cs
  induction cs with
  | nil => intro _ h; exact absurd rfl h
  | cons c rest ih =>
    intro fuel _ hval hlinks hlen
    cases fuel with
    | zero => simp at hlen
    | succ fuel =>
      cases rest with
      | nil =>
        have h : next_cluster e c = FAT32_EOF := hlinks
        simp [walk_chain, h, FAT32_EOF]
      | cons c1 rest1 =>
        obtain ⟨h1, h2⟩ := hlinks
        have hc1 := hval c1 (by simp)
        have hne : c1 ≠ 0 := valid_cluster_ne_zero _ _ hc1
        have hlt : ¬ 0x0FFFFFF8 ≤ c1 := by
          obtain ⟨-, -, -, -, h5⟩ := hv
          unfold valid_cluster at hc1
          omega
        have hrec := ih fuel (by simp) (fun x hx => hval x (List.mem_cons_of_mem _ hx)) h2
          (by simpa using hlen)
        simp only [List.headD_cons] at hrec ⊢
        simp only [walk_chain, h1, hne, if_false, hlt, hrec]

theorem walk_chain_congr (e e1 : Engine) :
    ∀ (fuel c : Nat) (R : List Nat), walk_chain fuel c e = .ok R →
      (∀ r ∈ R, next_cluster e1 r = next_cluster e r) →
      walk_chain fuel c e1 = .ok R := by
  intro fuel
  induction fuel with
  | zero => intro c R h; simp [walk_chain] at h
  | succ fuel ih =>
    intro c R h hsame
    simp only [walk_chain] at h ⊢
    by_cases h0 : next_cluster e c = 0
    · simp [h0] at h
    · rw [if_neg h0] at h
      by_cases hE : 0x0FFFFFF8 ≤ next_cluster e c
      · rw [if_pos hE] at h
        simp only [Except.ok.injEq] at h
        subst h
        have hc := hsame c (by simp)
        rw [hc, if_neg h0, if_pos hE]
      · rw [if_neg hE] at h
        cases hrec : walk_chain fuel (next_cluster e c) e with
        | error err => rw [hrec] at h; simp at h
        | ok cs =>
          rw [hrec] at h
          simp only [Except.ok.injEq] at h
          subst h
          have hc := hsame c (by simp)
          rw [hc, if_neg h0, if_neg hE,
            ih _ cs hrec (fun r hr => hsame r (List.mem_cons_of_mem _ hr))]

theorem walk_chain_nonzero (e : Engine) :
    ∀ (fuel c : Nat) (R : List Nat), walk_chain fuel c e = .ok R →
      R ≠ [] ∧ ∀ r ∈ R, next_cluster e r ≠ 0 := by
  intro fuel
  induction fuel with
  | zero => intro c R h; simp [walk_chain] at h
  | succ fuel ih =>
    intro c R h
    simp only [walk_chain] at h
    by_cases h0 : next_cluster e c = 0
    · simp [h0] at h
    · rw [if_neg h0] at h
      by_cases hE : 0x0FFFFFF8 ≤ next_cluster e c
      · rw [if_pos hE] at h
        simp only [Except.ok.injEq] at h
        subst h
        exact ⟨by simp, fun r hr => by simp at hr; subst hr; exact h0⟩
      · rw [if_neg hE] at h
        cases hrec : walk_chain fuel (next_cluster e c) e with
        | error err => rw [hrec] at h; simp at h
        | ok cs =>
          rw [hrec] at h
          simp only [Except.ok.injEq] at h
          subst h
          refine ⟨by simp, fun r hr => ?_⟩
          rcases List.mem_cons.mp hr with rfl | hr
          · exact h0
          · exact (ih _ cs hrec).2 r hr

/-! ## Theorems: cluster contents and directory slots -/

theorem write_chain_data_other (size : Nat) :
    ∀ (cs content : List Nat) (clusters : Nat → Nat → Nat) (c : Nat), c ∉ cs →
      write_chain_data size cs content clusters c = clusters c := by
  intro cs
  induction cs with
  | nil => intro _ _ _ _; rfl
  | cons x rest ih =>
    intro content clusters c hc
    have hcx : c ≠ x := fun h => hc (h ▸ List.mem_cons_self _ _)
    simp only [write_chain_data]
    rw [ih _ _ c (fun h => hc (List.mem_cons_of_mem _ h))]
    funext i
    simp [write_cluster, hcx]

theorem read_written_cluster (c : Nat) (bytes : List Nat) (clusters : Nat → Nat → Nat) :
    (List.range bytes.length).map (write_cluster c bytes clusters c) = bytes := by
  apply List.ext_getElem
  · simp
  · intro i h1 h2
    simp only [List.length_map, List.length_range] at h1
    simp [write_cluster, h1, List.getD_eq_getElem?_getD]

theorem read_write_chain (size last_len : Nat) (h2 : last_len ≤ size) :
    ∀ (cs content : List Nat) (clusters : Nat → Nat → Nat), cs ≠ [] → cs.Nodup →
      content.length = (cs.length - 1) * size + last_len →
      read_chain_data (write_chain_data size cs content clusters) size last_len cs
        = content := by
  intro cs
  induction cs with
  | nil => intro _ _ h; exact absurd rfl h
  | cons c rest ih =>
    intro content clusters _ hnd hlen
    rw [List.nodup_cons] at hnd
    obtain ⟨hc, hnd⟩ := hnd
    cases rest with
    | nil =>
      simp only [List.length_singleton, Nat.sub_self, Nat.zero_mul, Nat.zero_add] at hlen
      have htake : content.take size = content := List.take_of_length_le (by omega)
      simp only [write_chain_data, read_chain_data, htake]
      rw [← hlen]
      exact read_written_cluster c content clusters
    | cons c1 rest1 =>
      simp only [List.length_cons, Nat.add_sub_cancel] at hlen
      have hmul : (rest1.length + 1) * size = rest1.length * size + size :=
        Nat.succ_mul _ _
      have htl : (content.take size).length = size := by
        rw [List.length_take]
        omega
      have hrec := ih (content.drop size)
        (write_cluster c (content.take size) clusters) (by simp) hnd
        (by simp only [List.length_cons, Nat.add_sub_cancel, List.length_drop]; omega)
      simp only [write_chain_data, read_chain_data] at hrec ⊢
      rw [hrec]
      have hcw := write_chain_data_other size (c1 :: rest1) (content.drop size)
        (write_cluster c (content.take size) clusters) c hc
      simp only [write_chain_data] at hcw
      rw [hcw]
      have := read_written_cluster c (content.take size) clusters
      rw [htl] at this
      rw [this, List.take_append_drop]

theorem fold_case_fold_case (b : Nat) : fold_case (fold_case b) = fold_case b := by
  by_cases h : 97 ≤ b ∧ b ≤ 122
  · have h1 : ¬ (97 ≤ b - 32 ∧ b - 32 ≤ 122) := by omega
    simp only [fold_case, if_pos h, if_neg h1]
  · simp only [fold_case, if_neg h]

theorem folded_name_ok (file_name : List Nat) (h : valid_name file_name) :
    (file_name.map fold_case).headD EMPTY ≠ EMPTY ∧
    (file_name.map fold_case).headD EMPTY ≠ DELETED ∧
    (file_name.map fold_case).map fold_case = file_name.map fold_case := by
  obtain ⟨-, h1, h2⟩ := h
  refine ⟨?_, ?_, ?_⟩
  · cases file_name with
    | nil => simp at h1
    | cons b t =>
      simp only [List.headD_cons, List.map_cons, EMPTY] at h1 ⊢
      unfold fold_case
      split <;> omega
  · cases file_name with
    | nil => simp at h1
    | cons b t =>
      simp only [List.headD_cons, List.map_cons, EMPTY, DELETED] at h1 h2 ⊢
      unfold fold_case
      split <;> omega
  · simp [List.map_map, Function.comp_def, fold_case_fold_case]

theorem dir_find_after_place (file_name : List Nat) (entry : DirEntry)
    (h1 : entry.first_byte ≠ EMPTY) (h2 : entry.first_byte ≠ DELETED)
    (h3 : entry.name.map fold_case = file_name.map fold_case) :
    ∀ slots slots1 : List DirEntry, dir_find file_name slots = none →
      dir_place entry slots = some slots1 →
      ∃ i, dir_find file_name slots1 = some (i, entry) := by
  intro slots
  induction slots with
  | nil => intro slots1 _ h; simp [dir_place] at h
  | cons d ds ih =>
    intro slots1 hfind hplace
    simp only [dir_place] at hplace
    by_cases hre : d.first_byte = EMPTY ∨ d.first_byte = DELETED
    · rw [if_pos hre] at hplace
      simp only [Option.some.injEq] at hplace
      subst hplace
      exact ⟨0, by simp [dir_find, h1, h2, h3]⟩
    · rw [if_neg hre] at hplace
      push_neg at hre
      obtain ⟨hne, hnd⟩ := hre
      simp only [dir_find, hne, if_false, hnd, ne_eq, not_false_eq_true, true_and] at hfind
      by_cases hm : d.name.map fold_case = file_name.map fold_case
      · simp [hm] at hfind
      · rw [if_neg hm] at hfind
        cases hp : dir_place entry ds with
        | none => simp [hp] at hplace
        | some s2 =>
          rw [hp] at hplace
          simp only [Option.map_some', Option.some.injEq] at hplace
          subst hplace
          have hfds : dir_find file_name ds = none := by
            cases hf : dir_find file_name ds with
            | none => rfl
            | some q => simp [hf] at hfind
          obtain ⟨i, hi⟩ := ih s2 hfds hp
          exact ⟨i + 1, by simp [dir_find, hne, hnd, hm, hi]⟩

theorem dir_find_after_replace (file_name : List Nat) (entry : DirEntry)
    (h1 : entry.first_byte ≠ EMPTY) (h2 : entry.first_byte ≠ DELETED)
    (h3 : entry.name.map fold_case = file_name.map fold_case) :
    ∀ (slots : List DirEntry) (i : Nat) (d : DirEntry),
      dir_find file_name slots = some (i, d) →
      ∃ slots1, dir_place entry (dir_mark_deleted i slots) = some slots1 ∧
        ∃ j, dir_find file_name slots1 = some (j, entry) := by
  intro slots
  induction slots with
  | nil => intro i d h; simp [dir_find] at h
  | cons a ds ih =>
    intro i d hfind
    simp only [dir_find] at hfind
    by_cases hne : a.first_byte = EMPTY
    · simp [hne] at hfind
    · rw [if_neg hne] at hfind
      by_cases hm : a.first_byte ≠ DELETED ∧ a.name.map fold_case = file_name.map fold_case
      · rw [if_pos hm] at hfind
        simp only [Option.some.injEq, Prod.mk.injEq] at hfind
        obtain ⟨hi, -⟩ := hfind
        subst hi
        refine ⟨entry :: ds, ?_, 0, ?_⟩
        · simp [dir_mark_deleted, dir_place, DirEntry.first_byte]
        · simp [dir_find, h1, h2, h3]
      · rw [if_neg hm] at hfind
        cases hf : dir_find file_name ds with
        | none => simp [hf] at hfind
        | some q =>
          obtain ⟨i1, d1⟩ := q
          rw [hf] at hfind
          simp only [Option.map_some', Option.some.injEq, Prod.mk.injEq] at hfind
          obtain ⟨hi, -⟩ := hfind
          subst hi
          obtain ⟨s2, hp, j, hj⟩ := ih i1 d1 hf
          by_cases hdel : a.first_byte = DELETED
          · refine ⟨entry :: dir_mark_deleted i1 ds, ?_, 0, ?_⟩
            · simp [dir_mark_deleted, dir_place, hdel]
            · simp [dir_find, h1, h2, h3]
          · refine ⟨a :: s2, ?_, j + 1, ?_⟩
            · simp [dir_mark_deleted, dir_place, hne, hdel, hp]
            · have hm2 : ¬ a.name.map fold_case = file_name.map fold_case :=
                fun h => hm ⟨hdel, h⟩
              simp [dir_find, hne, hdel, hm2, hj]

theorem dir_find_after_extend (file_name : List Nat) (entry : DirEntry)
    (h1 : entry.first_byte ≠ EMPTY) (h2 : entry.first_byte ≠ DELETED)
    (h3 : entry.name.map fold_case = file_name.map fold_case) (more : List DirEntry) :
    ∀ slots : List DirEntry, dir_find file_name slots = none →
      dir_place entry slots = none →
      ∃ j, dir_find file_name (slots ++ entry :: more) = some (j, entry) := by
  intro slots
  induction slots with
  | nil => intro _ _; exact ⟨0, by simp [dir_find, h1, h2, h3]⟩
  | cons d ds ih =>
    intro hfind hplace
    simp only [dir_place] at hplace
    by_cases hre : d.first_byte = EMPTY ∨ d.first_byte = DELETED
    · simp [hre] at hplace
    · rw [if_neg hre] at hplace
      push_neg at hre
      obtain ⟨hne, hnd⟩ := hre
      simp only [dir_find, hne, if_false, hnd, ne_eq, not_false_eq_true, true_and] at hfind
      by_cases hm : d.name.map fold_case = file_name.map fold_case
      · simp [hm] at hfind
      · rw [if_neg hm] at hfind
        have hfds : dir_find file_name ds = none := by
          cases hf : dir_find file_name ds with
          | none => rfl
          | some q => simp [hf] at hfind
        have hpds : dir_place entry ds = none := by
          cases hp : dir_place entry ds with
          | none => rfl
          | some q => simp [hp] at hplace
        obtain ⟨j, hj⟩ := ih hfds hpds
        exact ⟨j + 1, by simp [dir_find, hne, hnd, hm, hj]⟩

/-! ## Theorems: writing a file and reading it back -/

theorem free_cluster_facts (x : Nat) (e : Engine) (hv : e.vol.wf) :
    (free_cluster x e).vol = e.vol ∧ (free_cluster x e).clusters = e.clusters ∧
    (free_cluster x e).root_dir = e.root_dir ∧
    (free_cluster x e).next_free_cluster = e.next_free_cluster ∧
    (∀ c, c * 4 < e.vol.fat_size * 512 → next_cluster e c = 0 →
      next_cluster (free_cluster x e) c = 0) := by
  obtain ⟨hb, -, hf, -, -⟩ := hv
  unfold free_cluster
  refine ⟨?_, ?_, ?_, ?_, ?_⟩
  · rw [free_memory_update_vol, set_next_vol]
  · rw [free_memory_update_clusters, set_next_clusters]
  · rw [free_memory_update_root_dir, set_next_root_dir]
  · rw [free_memory_update_next_free_cluster, set_next_next_free_cluster]
  · intro c hin h0
    rw [next_cluster_free_memory_update]
    by_cases hc : c = x
    · subst hc
      rw [next_cluster_set_next_self _ _ _ hf]
      rfl
    · rw [next_cluster_set_next_other _ _ _ _ hb hc hin, h0]

theorem release_chain_facts :
    ∀ (fuel first : Nat) (e : Engine), e.vol.wf →
      (release_chain fuel first e).vol = e.vol ∧
      (release_chain fuel first e).clusters = e.clusters ∧
      (release_chain fuel first e).root_dir = e.root_dir ∧
      (release_chain fuel first e).next_free_cluster = e.next_free_cluster ∧
      (∀ c, c * 4 < e.vol.fat_size * 512 → next_cluster e c = 0 →
        next_cluster (release_chain fuel first e) c = 0) := by
  intro fuel
  induction fuel with
  | zero =>
    intro first e _
    exact ⟨rfl, rfl, rfl, rfl, fun _ _ h => h⟩
  | succ fuel ih =>
    intro first e hv
    obtain ⟨f1, f2, f3, f4, f5⟩ := free_cluster_facts first e hv
    simp only [release_chain]
    by_cases h2 : first < 2
    · rw [if_pos h2]
      exact ⟨rfl, rfl, rfl, rfl, fun _ _ h => h⟩
    · rw [if_neg h2]
      by_cases hend : next_cluster e first = 0 ∨ 0x0FFFFFF8 ≤ next_cluster e first
      · rw [if_pos hend]
        exact ⟨f1, f2, f3, f4, f5⟩
      · rw [if_neg hend]
        obtain ⟨g1, g2, g3, g4, g5⟩ :=
          ih (next_cluster e first) (free_cluster first e) (by rw [f1]; exact hv)
        refine ⟨g1.trans f1, g2.trans f2, g3.trans f3, g4.trans f4, ?_⟩
        intro c hin h0
        exact g5 c (by rw [f1]; exact hin) (f5 c hin h0)

theorem chain_links_congr (e e1 : Engine) :
    ∀ cs : List Nat, (∀ c ∈ cs, next_cluster e1 c = next_cluster e c) →
      chain_links e cs → chain_links e1 cs := by
  intro cs
  induction cs with
  | nil => intro _ _; trivial
  | cons c rest ih =>
    intro hsame hl
    cases rest with
    | nil =>
      show next_cluster e1 c = FAT32_EOF
      rw [hsame c (by simp)]
      exact hl
    | cons c1 rest1 =>
      obtain ⟨h1, h2⟩ := hl
      exact ⟨by rw [hsame c (by simp)]; exact h1,
        ih (fun x hx => hsame x (List.mem_cons_of_mem _ hx)) h2⟩

theorem free_clusters_from_le (e : Engine) : free_clusters_from e ≤ e.vol.total_clusters := by
  unfold free_clusters_from
  refine le_trans (List.length_filter_le _ _) ?_
  simp only [scan_range, List.length_range']
  split <;> omega

theorem cluster_size_pos (v : Volume) (hv : v.wf) : 0 < cluster_size v := by
  obtain ⟨hb, hs, -, -, -⟩ := hv
  unfold cluster_size
  rw [hb]
  omega

theorem ceil_div_zero (N size : Nat) (hs : 0 < size) (h : (N + size - 1) / size = 0) :
    N = 0 := by
  by_contra hN
  have : 1 ≤ (N + size - 1) / size := by
    rw [Nat.le_div_iff_mul_le hs]
    omega
  omega

theorem ceil_div_split (N size : Nat) (hs : 0 < size) (hN : 0 < N) :
    N = ((N + size - 1) / size - 1) * size
      + (if N % size = 0 then size else N % size) := by
  have hdm := Nat.div_add_mod N size
  have hmod := Nat.mod_lt N hs
  have hcomm : size * (N / size) = N / size * size := Nat.mul_comm _ _
  by_cases hr : N % size = 0
  · rw [if_pos hr]
    have hq : (N + size - 1) / size = N / size := by
      apply Nat.div_eq_of_lt_le
      · omega
      · rw [Nat.succ_mul]; omega
    have hq1 : 1 ≤ N / size := by
      rcases Nat.eq_zero_or_pos (N / size) with h0 | h0
      · rw [h0] at hdm
        simp only [Nat.mul_zero, Nat.zero_add] at hdm
        omega
      · exact h0
    rw [hq]
    have : (N / size - 1) * size + size = N / size * size := by
      rw [← Nat.succ_mul]
      congr 1
      omega
    omega
  · rw [if_neg hr]
    have hq : (N + size - 1) / size = N / size + 1 := by
      apply Nat.div_eq_of_lt_le
      · rw [Nat.succ_mul]; omega
      · rw [Nat.succ_mul, Nat.succ_mul]; omega
    rw [hq, Nat.add_sub_cancel]
    omega

/-- Reading back: when the entry found under `file_name` points at a chain of
distinct clusters of the volume that holds `content`, `read_and_retrieve_file_contents`
returns `content`. -/
theorem read_back (e4 : Engine) (hv : e4.vol.wf) (file_name content : List Nat)
    (j : Nat) (d : DirEntry) (cs : List Nat) (base : Nat → Nat → Nat)
    (hfind : dir_find file_name e4.root_dir = some (j, d))
    (hfirst : d.first_cluster = cs.headD 0) (hsize : d.file_size = content.length)
    (hlen : cs.length = (content.length + cluster_size e4.vol - 1) / cluster_size e4.vol)
    (hval : ∀ c ∈ cs, valid_cluster e4.vol c) (hnd : cs.Nodup)
    (hlinks : chain_links e4 cs) (htot : cs.length ≤ e4.vol.total_clusters)
    (hclu : e4.clusters = write_chain_data (cluster_size e4.vol) cs content base) :
    read_and_retrieve_file_contents file_name e4 = .ok content := by
  have hs := cluster_size_pos _ hv
  unfold read_and_retrieve_file_contents
  rw [hfind]
  simp only
  cases cs with
  | nil =>
    have hN : content.length = 0 := ceil_div_zero _ _ hs (by rw [← hlen]; rfl)
    have hc : content = [] := List.length_eq_zero.mp hN
    have h0 : d.first_cluster < 2 := by
      rw [hfirst]
      simp
    simp [cluster_chain, h0, read_chain_data, hc]
  | cons c rest =>
    have hcv := hval c (List.mem_cons_self _ _)
    have h2 : ¬ c < 2 := by
      unfold valid_cluster at hcv
      omega
    have hwalk := walk_chain_of_links e4 hv (c :: rest) e4.vol.total_clusters (by simp)
      hval hlinks htot
    simp only [List.headD_cons] at hwalk hfirst
    have hNpos : 0 < content.length := by
      by_contra h0
      have h0 : content.length = 0 := by omega
      rw [h0] at hlen
      have : (0 + cluster_size e4.vol - 1) / cluster_size e4.vol = 0 :=
        Nat.div_eq_of_lt (by omega)
      rw [this] at hlen
      simp at hlen
    have hsplit := ceil_div_split content.length (cluster_size e4.vol) hs hNpos
    rw [← hlen] at hsplit
    have hlast : (if content.length % cluster_size e4.vol = 0 then cluster_size e4.vol
        else content.length % cluster_size e4.vol) ≤ cluster_size e4.vol := by
      split
      · exact le_refl _
      · exact le_of_lt (Nat.mod_lt _ hs)
    simp only [cluster_chain, hfirst, if_neg h2, hwalk, hsize, hclu]
    rw [read_write_chain _ _ hlast (c :: rest) content base (by simp) hnd hsplit]

theorem dir_place_none_congr (a b : DirEntry) :
    ∀ slots : List DirEntry, dir_place a slots = none → dir_place b slots = none := by
  intro slots
  induction slots with
  | nil => intro _; rfl
  | cons d ds ih =>
    intro h
    simp only [dir_place] at h ⊢
    by_cases hre : d.first_byte = EMPTY ∨ d.first_byte = DELETED
    · simp [hre] at h
    · rw [if_neg hre] at h ⊢
      cases hp : dir_place a ds with
      | none => rw [ih hp]; rfl
      | some q => simp [hp] at h

theorem next_cluster_store_content (chain content : List Nat) (e : Engine) (c : Nat) :
    next_cluster (store_content chain content e) c = next_cluster e c :=
  next_cluster_congr _ _ rfl rfl c

theorem next_cluster_set_root_dir (slots : List DirEntry) (e : Engine) (c : Nat) :
    next_cluster (set_root_dir slots e) c = next_cluster e c :=
  next_cluster_congr _ _ rfl rfl c

theorem free_clusters_from_store_content (chain content : List Nat) (e : Engine) :
    free_clusters_from (store_content chain content e) = free_clusters_from e := rfl

theorem fresh_entry_facts (file_name : List Nat) (hname : valid_name file_name)
    (first size : Nat) (hfirst : first < 2 ^ 32) (hsize : size < 2 ^ 32) :
    (fresh_entry file_name first size).first_byte ≠ EMPTY ∧
    (fresh_entry file_name first size).first_byte ≠ DELETED ∧
    (fresh_entry file_name first size).name.map fold_case = file_name.map fold_case ∧
    (fresh_entry file_name first size).first_cluster = first ∧
    (fresh_entry file_name first size).file_size = size := by
  obtain ⟨n1, n2, n3⟩ := folded_name_ok file_name hname
  refine ⟨n1, n2, n3, ?_, ?_⟩
  · show first / 65536 % 65536 * 65536 + first % 65536 = first
    omega
  · show size % 2 ^ 32 = size
    omega

/-- What `write_new_entry` does on a well-formed volume when the clusters it needs
are within reach of the allocator and the directory either has a slot to reuse or can
be extended: it succeeds, and the file then reads back as the content written. -/
theorem write_new_entry_spec (e : Engine) (hv : e.vol.wf)
    (file_name content : List Nat) (hname : valid_name file_name)
    (hN : content.length < 2 ^ 32)
    (hfree : (content.length + cluster_size e.vol - 1) / cluster_size e.vol
      ≤ free_clusters_from e)
    (hdir :
      (∀ entry : DirEntry, entry.first_byte ≠ EMPTY → entry.first_byte ≠ DELETED →
        entry.name.map fold_case = file_name.map fold_case →
        ∃ slots1, dir_place entry e.root_dir = some slots1 ∧
          ∃ j, dir_find file_name slots1 = some (j, entry)) ∨
      (dir_find file_name e.root_dir = none ∧
        (∀ entry : DirEntry, dir_place entry e.root_dir = none) ∧ root_chain_ok e ∧
        (content.length + cluster_size e.vol - 1) / cluster_size e.vol + 1
          ≤ free_clusters_from e)) :
    ∃ e4, write_new_entry file_name content e = .ok e4 ∧
      read_and_retrieve_file_contents file_name e4 = .ok content ∧
      ∃ i d, dir_find file_name e4.root_dir = some (i, d) ∧
        d.file_size = content.length := by
  obtain ⟨cs, e2, hrec, hlen, hfreecs, hnd, hlinks, hnz, -, hframe, hvol2, hclu2, hdir2,
      hhint2, hcount2⟩ :=
    allocate_chain_spec _ 0 e hv (Or.inl (by omega)) hfree
  have hcsval : ∀ c ∈ cs, valid_cluster e.vol c := fun c hc => (hfreecs c hc).1
  have hhead : cs.headD 0 < 2 ^ 32 := by
    cases cs with
    | nil => simp
    | cons c rest =>
      have hc := hcsval c (List.mem_cons_self _ _)
      obtain ⟨-, -, -, -, h5⟩ := hv
      unfold valid_cluster at hc
      simp only [List.headD_cons]
      omega
  obtain ⟨n1, n2, n3, n4, n5⟩ := fresh_entry_facts file_name hname (cs.headD 0)
    content.length hhead hN
  have htot : cs.length ≤ e.vol.total_clusters := by
    rw [hlen]
    exact le_trans hfree (free_clusters_from_le e)
  -- the engine after the content has been stored
  obtain ⟨e3, he3⟩ : ∃ e3, e3 = store_content cs content e2 := ⟨_, rfl⟩
  have hvol3 : e3.vol = e.vol := by rw [he3]; exact hvol2
  have hdir3 : e3.root_dir = e.root_dir := by rw [he3]; exact hdir2
  have hclu3 : e3.clusters = write_chain_data (cluster_size e.vol) cs content e2.clusters := by
    rw [he3, ← hvol2]
    rfl
  have hnext3 : ∀ c, next_cluster e3 c = next_cluster e2 c := by
    intro c
    rw [he3]
    exact next_cluster_store_content _ _ _ c
  have hfree3 : free_clusters_from e3 = free_clusters_from e2 := by
    rw [he3]
    rfl
  have hw : write_new_entry file_name content e
      = dir_insert (fresh_entry file_name (cs.headD 0) content.length) e3 := by
    simp only [write_new_entry, hrec, he3]
  rw [hw]
  rcases hdir with hR | ⟨hnone, hfull, hroot, hfree1⟩
  · obtain ⟨slots1, hplace, j, hj⟩ := hR _ n1 n2 n3
    refine ⟨set_root_dir slots1 e3, ?_, ?_, ?_⟩
    · simp only [dir_insert, hdir3, hplace]
    · apply read_back _ (by show e3.vol.wf; rw [hvol3]; exact hv) file_name content j _ cs
        e2.clusters hj n4 n5
      · show cs.length = (content.length + cluster_size e3.vol - 1) / cluster_size e3.vol
        rw [hvol3, hlen]
      · intro c hc
        show valid_cluster e3.vol c
        rw [hvol3]
        exact hcsval c hc
      · exact hnd
      · exact chain_links_congr e2 _ cs
          (fun c _ => (next_cluster_set_root_dir _ _ c).trans (hnext3 c)) hlinks
      · show cs.length ≤ e3.vol.total_clusters
        rw [hvol3]
        exact htot
      · show e3.clusters = write_chain_data (cluster_size e3.vol) cs content e2.clusters
        rw [hclu3, hvol3]
    · exact ⟨j, _, hj, n5⟩
  · -- the root directory is extended by one cluster
    have hplace := hfull (fresh_entry file_name (cs.headD 0) content.length)
    unfold root_chain_ok at hroot
    cases hrc : cluster_chain e.vol.root_cluster e with
    | error err => rw [hrc] at hroot; exact hroot.elim
    | ok R =>
      rw [hrc] at hroot
      simp only at hroot
      have hRnz : ∀ r ∈ R, next_cluster e r ≠ 0 := by
        intro r hr
        unfold cluster_chain at hrc
        by_cases h2 : e.vol.root_cluster < 2
        · rw [if_pos h2] at hrc
          simp only [Except.ok.injEq] at hrc
          subst hrc
          simp at hr
        · rw [if_neg h2] at hrc
          exact (walk_chain_nonzero e _ _ R hrc).2 r hr
      have hRcs : ∀ r ∈ R, r ∉ cs := fun r hr hrc2 => hRnz r hr (hfreecs r hrc2).2
      have hsame3 : ∀ r ∈ R, next_cluster e3 r = next_cluster e r := fun r hr =>
        (hnext3 r).trans (hframe r (hRcs r hr) (Or.inr (Or.inl (by omega)))
          (valid_cluster_in_fat _ hv r (hroot r hr)))
      have hrc3 : cluster_chain e3.vol.root_cluster e3 = .ok R := by
        unfold cluster_chain at hrc ⊢
        rw [hvol3]
        by_cases h2 : e.vol.root_cluster < 2
        · rw [if_pos h2] at hrc ⊢
          exact hrc
        · rw [if_neg h2] at hrc ⊢
          exact walk_chain_congr e _ _ _ R hrc hsame3
      have htailR : R.getLastD 0 < 2 ∨ R.getLastD 0 ∈ R := by
        rcases List.mem_cons.mp (List.getLastD_mem_cons R 0) with h | h
        · left; omega
        · right; exact h
      obtain ⟨dnew, e5, hal⟩ := allocate_and_link_succeeds (R.getLastD 0) e3
        (by rw [hfree3]; omega)
      obtain ⟨-, hdfree, hvol5, hclu5, hdir5, -, -, -, hother5⟩ :=
        allocate_and_link_ok (R.getLastD 0) e3 (by rw [hvol3]; exact hv) dnew e5 hal
      have hvol5e : e5.vol = e.vol := hvol5.trans hvol3
      have hlinks5 : chain_links e5 cs := by
        apply chain_links_congr e2 e5 cs _ hlinks
        intro c hc
        have hcd : c ≠ dnew := by
          rintro rfl
          exact hnz c hc ((hnext3 c).symm.trans hdfree)
        have hct : c ≠ R.getLastD 0 ∨ R.getLastD 0 < 2 := by
          rcases htailR with h | h
          · exact Or.inr h
          · exact Or.inl (fun heq => hRcs _ h (heq ▸ hc))
        have := hother5 c hcd hct
          (by rw [hvol3]; exact valid_cluster_in_fat _ hv c (hcsval c hc))
        exact this.trans (hnext3 c)
      obtain ⟨j, hj⟩ := dir_find_after_extend file_name _ n1 n2 n3
        (List.replicate (cluster_size e3.vol / 32 - 1) empty_slot) e.root_dir hnone hplace
      refine ⟨set_root_dir (e3.root_dir ++
          fresh_entry file_name (cs.headD 0) content.length ::
          List.replicate (cluster_size e3.vol / 32 - 1) empty_slot) e5, ?_, ?_, ?_⟩
      · simp only [dir_insert, hdir3, hplace, hrc3, hal]
      · apply read_back _ (by show e5.vol.wf; rw [hvol5e]; exact hv) file_name content j _
          cs e2.clusters (by show dir_find file_name (e3.root_dir ++ _) = _; rw [hdir3]; exact hj)
          n4 n5
        · show cs.length = (content.length + cluster_size e5.vol - 1) / cluster_size e5.vol
          rw [hvol5e, hlen]
        · intro c hc
          show valid_cluster e5.vol c
          rw [hvol5e]
          exact hcsval c hc
        · exact hnd
        · exact chain_links_congr e5 _ cs (fun c _ => next_cluster_set_root_dir _ _ c)
            hlinks5
        · show cs.length ≤ e5.vol.total_clusters
          rw [hvol5e]
          exact htot
        · show e5.clusters = write_chain_data (cluster_size e5.vol) cs content e2.clusters
          rw [hclu5, hclu3, hvol5e]
      · exact ⟨j, _, by show dir_find file_name (e3.root_dir ++ _) = _; rw [hdir3]; exact hj,
          n5⟩

theorem toShort_of_range (x : Int) (h1 : -32768 ≤ x) (h2 : x < 32768) : toShort x = x := by
  unfold toShort
  omega

theorem store_chars_inside (G : Globals) (cells : Int → Char) (off : Int) (cs : List Char)
    (j : Int) (h1 : off ≤ j) (h2 : j < off + cs.length) (h3 : in_playlist G j) :
    store_chars G cells off cs j = cs.getD (j - off).toNat NUL := by
  unfold store_chars
  rw [if_pos ⟨h1, h2, h3⟩]

theorem store_chars_outside (G : Globals) (cells : Int → Char) (off : Int) (cs : List Char)
    (j : Int) (h : j < off ∨ off + cs.length ≤ j) :
    store_chars G cells off cs j = cells j := by
  unfold store_chars
  rw [if_neg]
  rintro ⟨h1, h2, -⟩
  omega

theorem read_chars_string (cells : Int → Char) :
    ∀ (cs : List Char) (fuel : Nat) (off : Int), cs.length < fuel →
      (∀ k : Nat, k < cs.length → cells (off + k) = cs.getD k NUL) →
      (∀ c ∈ cs, c ≠ NUL) → cells (off + cs.length) = NUL →
      read_chars cells fuel off = some cs := by
  intro cs
  induction cs with
  | nil =>
    intro fuel off hf _ _ hnul
    cases fuel with
    | zero => simp at hf
    | succ f =>
      simp only [List.length_nil, Nat.cast_zero, add_zero] at hnul
      simp [read_chars, hnul]
  | cons c cs ih =>
    intro fuel off hf hcells hne hnul
    cases fuel with
    | zero => simp at hf
    | succ f =>
      have h0 : cells off = c := by
        have := hcells 0 (by simp)
        simpa using this
      have hc : c ≠ NUL := hne c (by simp)
      have hrec : read_chars cells f (off + 1) = some cs := by
        apply ih f (off + 1)
        · simp only [List.length_cons] at hf
          omega
        · intro k hk
          have := hcells (k + 1) (by simp only [List.length_cons]; omega)
          simp only [Nat.cast_add, Nat.cast_one, List.getD_cons_succ] at this
          rw [← this]
          congr 1
          omega
        · intro d hd
          exact hne d (by simp [hd])
        · rw [← hnul]
          congr 1
          simp only [List.length_cons, Nat.cast_add, Nat.cast_one]
          omega
      simp [read_chars, h0, hc, hrec]

theorem read_chars_congr (cells cells2 : Int → Char) :
    ∀ (fuel : Nat) (off : Int) (cs : List Char), read_chars cells fuel off = some cs →
      (∀ k : Nat, k ≤ cs.length → cells2 (off + k) = cells (off + k)) →
      read_chars cells2 fuel off = some cs := by
  intro fuel
  induction fuel with
  | zero =>
    intro off cs h _
    simp [read_chars] at h
  | succ f ih =>
    intro off cs h hagree
    have e0 : cells2 off = cells off := by
      have := hagree 0 (by omega)
      simpa using this
    unfold read_chars at h ⊢
    rw [e0]
    by_cases hn : cells off = NUL
    · rw [if_pos hn] at h ⊢
      exact h
    · rw [if_neg hn] at h ⊢
      cases hrec : read_chars cells f (off + 1) with
      | none => rw [hrec] at h; simp at h
      | some cs1 =>
        rw [hrec] at h
        simp only [Option.map_some', Option.some.injEq] at h
        subst h
        have := ih (off + 1) cs1 hrec (by
          intro k hk
          have := hagree (k + 1) (by simp only [List.length_cons]; omega)
          simp only [Nat.cast_add, Nat.cast_one] at this
          have e : off + 1 + (k : Int) = off + ((k : Int) + 1) := by omega
          rw [e]
          exact this)
        rw [this]
        rfl

theorem mp3_chars_ne_nul (fileset : Option String) (m : String) :
    ∀ c ∈ mp3_chars fileset m, c ≠ NUL := by
  have hc : ∀ (str : String) (c : Char), c ∈ c_chars str → c ≠ NUL := by
    intro str c h
    have := List.mem_takeWhile_imp h
    simpa using this
  have hd : ∀ c ∈ ".mp3".toList, c ≠ NUL := by decide
  intro c h
  cases fileset with
  | none =>
    simp only [mp3_chars, List.mem_append] at h
    rcases h with h | h
    · exact hc _ _ h
    · exact hd _ h
  | some f =>
    simp only [mp3_chars, List.mem_append] at h
    rcases h with (h | h) | h
    · exact hc _ _ h
    · exact hc _ _ h
    · exact hd _ h

theorem mp3_name_length (fileset : Option String) (m : String) :
    (mp3_name fileset m).length = (mp3_chars fileset m).length := rfl

theorem row_string_stored (G : Globals) (cells : Int → Char) (i : Int) (cs : List Char)
    (h0 : 0 ≤ i) (hfit : fits_playlist G (row_offset i) cs) (hcs : ∀ c ∈ cs, c ≠ NUL) :
    row_string G (store_chars G cells (row_offset i) (cs ++ [NUL])) i
      = some (String.mk cs) := by
  obtain ⟨f0, f1⟩ := hfit
  unfold row_string
  rw [if_pos h0]
  have hin : ∀ k : Nat, k ≤ cs.length →
      store_chars G cells (row_offset i) (cs ++ [NUL]) (row_offset i + k)
        = (cs ++ [NUL]).getD k NUL := by
    intro k hk
    rw [store_chars_inside G cells (row_offset i) (cs ++ [NUL]) (row_offset i + k)
      (by omega) (by simp only [List.length_append, List.length_singleton, Nat.cast_add,
        Nat.cast_one]; omega) ⟨by omega, by omega⟩]
    congr 1
    omega
  rw [read_chars_string _ cs _ (row_offset i) (by omega) ?_ hcs ?_]
  · rfl
  · intro k hk
    rw [hin k (by omega), List.getD_append _ _ _ _ hk]
  · rw [hin cs.length (by omega), List.getD_append_right _ _ _ _ (by omega)]
    simp

theorem play_mp3_queued (G : Globals) (s : Audio) (fileset : Option String) (m : String)
    (hlo : -32768 ≤ s.playlist_size) (hhi : s.playlist_size < 32767)
    (hne : s.playlist_size ≠ MAX_PLAYLIST_SIZE) :
    (play_mp3 G fileset (some m) s).1 = true ∧
    (play_mp3 G fileset (some m) s).2.playlist
      = store_chars G s.playlist (row_offset s.playlist_size)
          (mp3_chars fileset m ++ [NUL]) ∧
    (play_mp3 G fileset (some m) s).2.playlist_size = s.playlist_size + 1 ∧
    (play_mp3 G fileset (some m) s).2.playlist_index = s.playlist_index ∧
    (play_mp3 G fileset (some m) s).2.playlist_empty = false ∧
    (play_mp3 G fileset (some m) s).2.requested = s.requested ∧
    (play_mp3 G fileset (some m) s).2.out_of_bounds
      = (s.out_of_bounds ||
          !decide (fits_playlist G (row_offset s.playlist_size) (mp3_chars fileset m))) := by
  have hsz : toShort (s.playlist_size + 1) = s.playlist_size + 1 :=
    toShort_of_range _ (by omega) (by omega)
  refine ⟨?_, ?_, ?_, ?_, ?_, ?_, ?_⟩
  · simp [play_mp3, hne]
  · simp [play_mp3, hne, hsz]
  · simp [play_mp3, hne, hsz]
  · simp [play_mp3, hne]
  · simp [play_mp3, hne]
  · simp [play_mp3, hne]
  · simp [play_mp3, hne, hsz]

theorem c_chars_of_no_nul (str : String) (h : NUL ∉ str.toList) : c_chars str = str.toList := by
  unfold c_chars
  rw [List.takeWhile_eq_self_iff]
  intro c hc
  have : c ≠ NUL := fun e => h (e ▸ hc)
  simpa using this

theorem row_string_congr (G : Globals) (cells cells2 : Int → Char) (i : Int) (str : String)
    (h : row_string G cells i = some str)
    (hagree : ∀ j, row_offset i ≤ j → j ≤ row_offset i + str.length →
      cells2 j = cells j) :
    row_string G cells2 i = some str := by
  unfold row_string at h ⊢
  by_cases h0 : 0 ≤ i
  · rw [if_pos h0] at h ⊢
    cases hread : read_chars cells (playlist_cells G - row_offset i).toNat (row_offset i) with
    | none => rw [hread] at h; simp at h
    | some cs =>
      rw [hread] at h
      simp only [Option.map_some', Option.some.injEq] at h
      subst h
      rw [read_chars_congr cells cells2 _ _ cs hread]
      · rfl
      · intro k hk
        exact hagree _ (by omega) (by
          show row_offset i + (k : Int) ≤ row_offset i + ((cs.length : Nat) : Int)
          omega)
  · rw [if_neg h0] at h
    simp at h

theorem row_fits (G : Globals) (i : Int) (cs : List Char) (h0 : 0 ≤ i)
    (hrow : i < G.MAX_FILENAME_SIZE) (hlen : (cs.length : Int) < MAX_PLAYLIST_SIZE) :
    fits_playlist G (row_offset i) cs := by
  unfold fits_playlist playlist_cells row_offset
  unfold MAX_PLAYLIST_SIZE at hlen ⊢
  constructor
  · omega
  · have : (i + 1) * 32 ≤ (G.MAX_FILENAME_SIZE : Int) * 32 :=
      Int.mul_le_mul_of_nonneg_right (by omega) (by omega)
    omega

theorem play_mp3_stored (G : Globals) (s : Audio) (fileset : Option String) (m : String)
    (h0 : 0 ≤ s.playlist_size) (h32 : s.playlist_size < 32)
    (hrow : s.playlist_size < G.MAX_FILENAME_SIZE)
    (hlen : ((mp3_name fileset m).length : Int) < MAX_PLAYLIST_SIZE) :
    row_string G (play_mp3 G fileset (some m) s).2.playlist s.playlist_size
      = some (mp3_name fileset m) ∧
    (∀ j, j < row_offset s.playlist_size ∨ row_offset (s.playlist_size + 1) ≤ j →
      (play_mp3 G fileset (some m) s).2.playlist j = s.playlist j) ∧
    (play_mp3 G fileset (some m) s).2.out_of_bounds = s.out_of_bounds := by
  have hne : s.playlist_size ≠ MAX_PLAYLIST_SIZE := by
    unfold MAX_PLAYLIST_SIZE
    omega
  obtain ⟨-, q2, -, -, -, -, q7⟩ :=
    play_mp3_queued G s fileset m (by omega) (by omega) hne
  have hfit : fits_playlist G (row_offset s.playlist_size) (mp3_chars fileset m) :=
    row_fits G _ _ h0 hrow hlen
  refine ⟨?_, ?_, ?_⟩
  · rw [q2]
    exact row_string_stored G s.playlist s.playlist_size (mp3_chars fileset m) h0 hfit
      (mp3_chars_ne_nul fileset m)
  · intro j hj
    rw [q2]
    apply store_chars_outside
    have hl : ((mp3_chars fileset m).length : Int) < 32 := hlen
    simp only [List.length_append, List.length_singleton, Nat.cast_add, Nat.cast_one]
    unfold row_offset MAX_PLAYLIST_SIZE at hj ⊢
    omega
  · rw [q7]
    simp [hfit]

theorem play_next_mp3_last (G : Globals) (s : Audio) (he : s.playlist_empty = false)
    (hlo : -32768 ≤ s.playlist_index) (hhi : s.playlist_index < 32767)
    (hlast : s.playlist_index + 1 = s.playlist_size) :
    play_next_mp3 G s =
      { s with requested := s.requested ++ [row_string G s.playlist s.playlist_index],
               playlist_empty := true, playlist_size := 0, playlist_index := 0 } := by
  have hsh : toShort (s.playlist_index + 1) = s.playlist_size := by
    rw [toShort_of_range _ (by omega) (by omega), hlast]
  unfold play_next_mp3
  rw [if_neg (by simp [he])]
  simp only [hsh, if_true]

theorem play_next_mp3_more (G : Globals) (s : Audio) (he : s.playlist_empty = false)
    (hlo : -32768 ≤ s.playlist_index) (hhi : s.playlist_index < 32767)
    (hmore : s.playlist_index + 1 ≠ s.playlist_size) :
    play_next_mp3 G s =
      { s with requested := s.requested ++ [row_string G s.playlist s.playlist_index],
               playlist_index := s.playlist_index + 1 } := by
  have hsh : toShort (s.playlist_index + 1) = s.playlist_index + 1 :=
    toShort_of_range _ (by omega) (by omega)
  unfold play_next_mp3
  rw [if_neg (by simp [he])]
  simp only [hsh, if_neg hmore]

theorem rowsFrom_take (G : Globals) (cells : Int → Char) :
    ∀ (k n : Nat) (i : Int), k ≤ n →
      (rowsFrom G cells i n).take k = rowsFrom G cells i k := by
  intro k
  induction k with
  | zero => intro n i _; simp [rowsFrom]
  | succ k ih =>
    intro n i h
    cases n with
    | zero => omega
    | succ n =>
      simp only [rowsFrom, List.take_succ_cons]
      rw [ih n (i + 1) (by omega)]

theorem play_mp3_all_spec (G : Globals) (items : List (Option String × String)) :
    ∀ s : Audio, 0 ≤ s.playlist_size → s.playlist_size + items.length ≤ 32 →
      (play_mp3_all G items s).1 = List.replicate items.length true ∧
      (play_mp3_all G items s).2.playlist_size = s.playlist_size + items.length ∧
      (play_mp3_all G items s).2.playlist_index = s.playlist_index ∧
      (play_mp3_all G items s).2.requested = s.requested ∧
      (items ≠ [] → (play_mp3_all G items s).2.playlist_empty = false) ∧
      (s.playlist_size + items.length ≤ G.MAX_FILENAME_SIZE →
        (∀ p ∈ items, ((mp3_name p.1 p.2).length : Int) < MAX_PLAYLIST_SIZE) →
        (play_mp3_all G items s).2.out_of_bounds = s.out_of_bounds ∧
        (∀ j, j < row_offset s.playlist_size →
          (play_mp3_all G items s).2.playlist j = s.playlist j) ∧
        rowsFrom G (play_mp3_all G items s).2.playlist s.playlist_size items.length
          = items.map (fun p => some (mp3_name p.1 p.2))) := by
  induction items with
  | nil =>
    intro s _ _
    simp [play_mp3_all, rowsFrom]
  | cons p rest ih =>
    intro s h0 h32
    obtain ⟨f, m⟩ := p
    simp only [List.length_cons, Nat.cast_add, Nat.cast_one] at h32
    have hne : s.playlist_size ≠ MAX_PLAYLIST_SIZE := by
      unfold MAX_PLAYLIST_SIZE
      omega
    obtain ⟨hr, hpl, hsz, hidx, hemp, hreq, hoob⟩ :=
      play_mp3_queued G s f m (by omega) (by omega) hne
    obtain ⟨i1, i2, i3, i4, i5, i6⟩ :=
      ih (play_mp3 G f (some m) s).2 (by rw [hsz]; omega) (by rw [hsz]; omega)
    refine ⟨?_, ?_, ?_, ?_, ?_, ?_⟩
    · simp [play_mp3_all, hr, i1, List.replicate_succ]
    · simp only [play_mp3_all, i2, hsz, List.length_cons, Nat.cast_add, Nat.cast_one]
      omega
    · simp only [play_mp3_all, i3, hidx]
    · simp only [play_mp3_all, i4, hreq]
    · intro _
      cases rest with
      | nil => simpa [play_mp3_all] using hemp
      | cons q rest2 => simpa [play_mp3_all] using i5 (by simp)
    · intro hrows hnames
      simp only [List.length_cons, Nat.cast_add, Nat.cast_one] at hrows
      have hlen : ((mp3_name f m).length : Int) < MAX_PLAYLIST_SIZE :=
        hnames (f, m) (by simp)
      obtain ⟨c1, c2, c3⟩ := play_mp3_stored G s f m h0 (by omega) (by omega) hlen
      obtain ⟨k1, k2, k3⟩ := i6 (by rw [hsz]; omega)
        (fun p hp => hnames p (by simp [hp]))
      rw [hsz] at k2 k3
      refine ⟨?_, ?_, ?_⟩
      · simp only [play_mp3_all]
        rw [k1, c3]
      · intro j hj
        simp only [play_mp3_all]
        rw [k2 j (by unfold row_offset MAX_PLAYLIST_SIZE at hj ⊢; omega),
          c2 j (Or.inl hj)]
      · simp only [play_mp3_all, List.length_cons, rowsFrom, List.map_cons]
        rw [k3]
        congr 1
        apply row_string_congr G _ _ _ _ c1
        intro j hj1 hj2
        apply k2
        have hl : ((mp3_name f m).length : Int) < 32 := hlen
        unfold row_offset MAX_PLAYLIST_SIZE at hj1 hj2 ⊢
        omega

theorem play_next_mp3_n_spec (G : Globals) :
    ∀ (k : Nat) (s : Audio), s.playlist_empty = false → 0 ≤ s.playlist_index →
      s.playlist_index + k ≤ s.playlist_size → s.playlist_size ≤ 32 →
      (play_next_mp3_n G k s).requested
        = s.requested ++ rowsFrom G s.playlist s.playlist_index k ∧
      (play_next_mp3_n G k s).out_of_bounds = s.out_of_bounds ∧
      (s.playlist_index + k = s.playlist_size → 1 ≤ k →
        (play_next_mp3_n G k s).playlist_empty = true ∧
        (play_next_mp3_n G k s).playlist_size = 0 ∧
        (play_next_mp3_n G k s).playlist_index = 0) := by
  intro k
  induction k with
  | zero =>
    intro s _ _ _ _
    simp [play_next_mp3_n, rowsFrom]
  | succ k ih =>
    intro s he h0 hk h32
    simp only [Nat.cast_add, Nat.cast_one] at hk
    by_cases hlast : s.playlist_index + 1 = s.playlist_size
    · have hk0 : k = 0 := by omega
      subst hk0
      simp [play_next_mp3_n, play_next_mp3_last G s he (by omega) (by omega) hlast,
        rowsFrom]
    · have hstep := play_next_mp3_more G s he (by omega) (by omega) hlast
      obtain ⟨j1, j2, j3⟩ := ih (play_next_mp3 G s) (by rw [hstep]; exact he)
        (by rw [hstep]; simp only; omega) (by rw [hstep]; simp only; omega)
        (by rw [hstep]; exact h32)
      refine ⟨?_, ?_, ?_⟩
      · simp only [play_next_mp3_n, rowsFrom]
        rw [j1, hstep]
        simp
      · simp only [play_next_mp3_n]
        rw [j2, hstep]
      · intro hend _
        simp only [Nat.cast_add, Nat.cast_one] at hend
        have hk1 : 1 ≤ k := by omega
        simp only [play_next_mp3_n]
        exact j3 (by rw [hstep]; simp only; omega) hk1

theorem reachable_play_mp3_all (G : Globals) (items : List (Option String × String)) :
    ∀ s : Audio, Reachable G s → Reachable G (play_mp3_all G items s).2 := by
  induction items with
  | nil => intro s h; exact h
  | cons p rest ih =>
    intro s h
    obtain ⟨f, m⟩ := p
    exact ih _ (Reachable.play f (some m) h)

theorem reachable_inv {G : Globals} {s : Audio} (h : Reachable G s) :
    (s.playlist_empty = true ∧ s.playlist_size = 0 ∧ s.playlist_index = 0) ∨
    (s.playlist_empty = false ∧ 0 ≤ s.playlist_index ∧
      s.playlist_index < s.playlist_size ∧ s.playlist_size ≤ 32) := by
  induction h with
  | init => left; exact ⟨rfl, rfl, rfl⟩
  | @play fileset mp3 s _ ih =>
    cases mp3 with
    | none => simpa [play_mp3] using ih
    | some m =>
      by_cases hfull : s.playlist_size = MAX_PLAYLIST_SIZE
      · simpa [play_mp3, hfull] using ih
      · have hsh : toShort (s.playlist_size + 1) = s.playlist_size + 1 := by
          apply toShort_of_range <;> rcases ih with ⟨_, h2, _⟩ | ⟨_, _, _, _⟩ <;> omega
        right
        have e1 : (play_mp3 G fileset (some m) s).2.playlist_empty = false := by
          simp [play_mp3, hfull]
        have e2 : (play_mp3 G fileset (some m) s).2.playlist_size
            = s.playlist_size + 1 := by
          simp [play_mp3, hfull, hsh]
        have e3 : (play_mp3 G fileset (some m) s).2.playlist_index
            = s.playlist_index := by
          simp [play_mp3, hfull]
        rw [e2, e3]
        unfold MAX_PLAYLIST_SIZE at hfull
        rcases ih with ⟨_, h2, h3⟩ | ⟨_, h2, h3, h4⟩
        · exact ⟨e1, by omega, by omega, by omega⟩
        · exact ⟨e1, by omega, by omega, by omega⟩
  | @next s _ ih =>
    rcases ih with ⟨h1, h2, h3⟩ | ⟨h1, h2, h3, h4⟩
    · left
      simp [play_next_mp3, h1, h2, h3]
    · by_cases hlast : s.playlist_index + 1 = s.playlist_size
      · left
        rw [play_next_mp3_last G s h1 (by omega) (by omega) hlast]
        exact ⟨rfl, rfl, rfl⟩
      · right
        rw [play_next_mp3_more G s h1 (by omega) (by omega) hlast]
        exact ⟨h1, by show 0 ≤ s.playlist_index + 1; omega,
          by show s.playlist_index + 1 < s.playlist_size; omega, h4⟩

theorem full_one_played_fields :
    full_one_played.playlist_size = 32 ∧ full_one_played.playlist_index = 1 ∧
    full_one_played.out_of_bounds = false := by
  obtain ⟨-, a2, a3, -, a5, a6⟩ :=
    play_mp3_all_spec globals32 (List.replicate 32 (none, "A")) Audio.init
      (by decide) (by decide)
  obtain ⟨a7, -, -⟩ := a6 (by decide) (by
    intro p hp
    rw [List.eq_of_mem_replicate hp]
    decide)
  have a5 := a5 (by decide)
  have a2 : (play_mp3_all globals32 (List.replicate 32 (none, "A")) Audio.init).2.playlist_size
      = 32 := a2.trans (by decide)
  have a3 : (play_mp3_all globals32 (List.replicate 32 (none, "A")) Audio.init).2.playlist_index
      = 0 := a3.trans (by decide)
  have a7 : (play_mp3_all globals32 (List.replicate 32 (none, "A")) Audio.init).2.out_of_bounds
      = false := a7
  unfold full_one_played
  generalize (play_mp3_all globals32 (List.replicate 32 (none, "A")) Audio.init).2 = t
    at a2 a3 a5 a7 ⊢
  rw [play_next_mp3_more globals32 t a5 (by omega) (by omega) (by omega)]
  exact ⟨a2, by show t.playlist_index + 1 = 1; omega, a7⟩

theorem get_line_all_right (M : IoMacros) (hmax : M.MAX_BUF_SIZE < 65536)
    (cells : List Nat) :
    ∀ s : LineEditor,
      (∀ c ∈ cells, c ≠ M.NO_DOTS ∧ M.GET_CELL_CONTROL c = 1) →
      s.io_line_cell_index + cells.length + 2 ≤ M.MAX_BUF_SIZE →
      (get_line_all M cells s).io_line_cell_index
        = s.io_line_cell_index + cells.length := by
  induction cells with
  | nil => intro s _ _; simp [get_line_all]
  | cons c cs ih =>
    intro s hall hlen
    simp only [List.length_cons] at hlen
    obtain ⟨hc, hctl⟩ := hall c (List.mem_cons_self c cs)
    have h1 : (s.io_line_cell_index + 2) % 65536 < M.MAX_BUF_SIZE := by
      rw [Nat.mod_eq_of_lt (by omega)]; omega
    have h2 : (s.io_line_cell_index + 1) % 65536 = s.io_line_cell_index + 1 :=
      Nat.mod_eq_of_lt (by omega)
    have hstep : (get_line M c s).2.io_line_cell_index = s.io_line_cell_index + 1 := by
      simp [get_line, hc, hctl, io_line_next_cell, h1, h2]
    have := ih (get_line M c s).2 (fun d hd => hall d (List.mem_cons_of_mem c hd))
      (by rw [hstep]; omega)
    simp only [get_line_all, List.length_cons]
    rw [this, hstep]
    omega

/-- C10: what `get_line` does when a cell arrives that is not `NO_DOTS` and carries
the ENTER control `0b11`, from any index the editor can reach
(`io_line_cell_index + 2 ≤ MAX_BUF_SIZE`, the buffer size fitting the 16 bit
index): it returns true, resets
`io_line_cell_index` to 0 and writes `END_OF_TEXT` at `eot_index`. When
`io_line_cell_index + 2 < MAX_BUF_SIZE` the marker goes to the next index and the
entered pattern is in the cell before it. At the last usable cell,
`io_line_cell_index + 2 = MAX_BUF_SIZE`, the marker goes to the same index: the line
is the old line with that cell replaced by `END_OF_TEXT`, so the entered pattern is
not in the buffer. That index is reached from index 0 by `MAX_BUF_SIZE - 2` cells
terminated with RIGHT. -/
theorem get_line_enter (M : IoMacros) (s : LineEditor) (c : Nat)
    (hmax : M.MAX_BUF_SIZE < 65536)
    (hidx : s.io_line_cell_index + 2 ≤ M.MAX_BUF_SIZE)
    (hc : c ≠ M.NO_DOTS) (hctl : M.GET_CELL_CONTROL c = 0b11) :
    (get_line M c s).1 = true ∧
    (get_line M c s).2.io_line_cell_index = 0 ∧
    (get_line M c s).2.io_line (eot_index M c s) = M.END_OF_TEXT ∧
    (s.io_line_cell_index + 2 < M.MAX_BUF_SIZE →
      eot_index M c s = s.io_line_cell_index + 1 ∧
      (get_line M c s).2.io_line (eot_index M c s - 1) = M.GET_CELL_PATTERN c) ∧
    (s.io_line_cell_index + 2 = M.MAX_BUF_SIZE →
      eot_index M c s = s.io_line_cell_index ∧
      (get_line M c s).2.io_line
        = setCell s.io_line s.io_line_cell_index M.END_OF_TEXT) ∧
    (∀ (cells : List Nat) (t : LineEditor), t.io_line_cell_index = 0 →
      (∀ d ∈ cells, d ≠ M.NO_DOTS ∧ M.GET_CELL_CONTROL d = 0b01) →
      cells.length + 2 = M.MAX_BUF_SIZE →
      (get_line_all M cells t).io_line_cell_index + 2 = M.MAX_BUF_SIZE) := by
  have hm2 : (s.io_line_cell_index + 2) % 65536 = s.io_line_cell_index + 2 :=
    Nat.mod_eq_of_lt (by omega)
  have hm1 : (s.io_line_cell_index + 1) % 65536 = s.io_line_cell_index + 1 :=
    Nat.mod_eq_of_lt (by omega)
  refine ⟨?_, ?_, ?_, ?_, ?_, ?_⟩
  · simp [get_line, hc, hctl]
  · simp [get_line, hc, hctl]
  · simp [get_line, hc, hctl, eot_index, setCell]
  · intro hlt
    have h1 : (s.io_line_cell_index + 2) % 65536 < M.MAX_BUF_SIZE := by
      rw [Nat.mod_eq_of_lt (by omega)]; exact hlt
    have he : eot_index M c s = s.io_line_cell_index + 1 := by
      simp [eot_index, io_line_next_cell, h1, hm1]
    refine ⟨he, ?_⟩
    rw [he]
    simp [get_line, hc, hctl, io_line_next_cell, h1, hm1, setCell]
  · intro heq
    have h1 : ¬ (s.io_line_cell_index + 2) % 65536 < M.MAX_BUF_SIZE := by
      rw [hm2]; omega
    have he : eot_index M c s = s.io_line_cell_index := by
      simp [eot_index, io_line_next_cell, h1]
    refine ⟨he, ?_⟩
    funext j
    by_cases hj : j = s.io_line_cell_index <;>
      simp [get_line, hc, hctl, io_line_next_cell, h1, setCell, hj]
  · intro cells t ht hall hlen
    rw [get_line_all_right M hmax cells t hall (by omega), ht]
    omega

/-- Witness of `get_line_enter`, in a buffer of 4 cells: two cells with patterns 1
and 2 are terminated with RIGHT, then a cell with pattern 3 with ENTER; the line
ends up as 1, 2, `END_OF_TEXT`, and the pattern 3 is lost. -/
theorem get_line_enter_witness :
    (macros4.MAX_BUF_SIZE < 65536 ∧
      (get_line_all macros4 [65, 66] LineEditor.init).io_line_cell_index + 2
        = macros4.MAX_BUF_SIZE ∧
      195 ≠ macros4.NO_DOTS ∧ macros4.GET_CELL_CONTROL 195 = 0b11 ∧
      macros4.GET_CELL_PATTERN 195 = 3) ∧
    (get_line macros4 195 (get_line_all macros4 [65, 66] LineEditor.init)).1 = true ∧
    (get_line macros4 195 (get_line_all macros4 [65, 66] LineEditor.init)).2.io_line 0
      = 1 ∧
    (get_line macros4 195 (get_line_all macros4 [65, 66] LineEditor.init)).2.io_line 1
      = 2 ∧
    (get_line macros4 195 (get_line_all macros4 [65, 66] LineEditor.init)).2.io_line 2
      = macros4.END_OF_TEXT ∧
    (get_line macros4 195 (get_line_all macros4 [65, 66] LineEditor.init)).2.io_line 3
      = 0 := by
  have h := get_line_enter macros4 (get_line_all macros4 [65, 66] LineEditor.init) 195
    (by decide) (by decide) (by decide) (by decide)
  have hl := (h.2.2.2.2.1 (by decide)).2
  refine ⟨⟨by decide, by decide, by decide, by decide, by decide⟩, h.1, ?_, ?_, ?_, ?_⟩
  · rw [hl]; decide
  · rw [hl]; decide
  · rw [hl]; decide
  · rw [hl]; decide

/-! ## Theorems: conversion of a line to glyphs -/

theorem io_convert_loop_spec {G : Type} (M : IoMacros) (glyph : Nat → Option G)
    (io_line : Nat → Nat) (n : Nat) (heot : io_line n = M.END_OF_TEXT)
    (hfirst : ∀ i, i < n → io_line i ≠ M.END_OF_TEXT) :
    ∀ (d i fuel : Nat) (io_parsed : Nat → Option G), i + d = n → d < fuel →
      ∃ r p, io_convert_loop M glyph io_line fuel i io_parsed = some (r, p) ∧
        (r = true ↔ ∀ j, i ≤ j → j < n → glyph (io_line j) ≠ none) ∧
        (r = true →
          (∀ j, i ≤ j → j < n → p j = glyph (io_line j)) ∧ p n = none ∧
          ∀ j, j < i ∨ n < j → p j = io_parsed j) ∧
        (r = false →
          ∃ k, i ≤ k ∧ k < n ∧ glyph (io_line k) = none ∧
            (∀ j, i ≤ j → j < k → glyph (io_line j) ≠ none ∧ p j = glyph (io_line j)) ∧
            ∀ j, j < i ∨ k ≤ j → p j = io_parsed j) := by
  intro d
  induction d with
  | zero =>
    intro i fuel io_parsed hi hfuel
    have hin : i = n := by omega
    subst hin
    cases fuel with
    | zero => omega
    | succ fuel =>
      refine ⟨true, setParsed io_parsed i none, by simp [io_convert_loop, heot], ?_, ?_, ?_⟩
      · simp only [true_iff]
        intro j h1 h2
        omega
      · intro _
        refine ⟨fun j h1 h2 => by omega, by simp [setParsed], ?_⟩
        intro j hj
        have : j ≠ i := by omega
        simp [setParsed, this]
      · intro h
        cases h
  | succ d ih =>
    intro i fuel io_parsed hi hfuel
    have hlt : i < n := by omega
    have hne := hfirst i hlt
    cases fuel with
    | zero => omega
    | succ fuel =>
      cases hg : glyph (io_line i) with
      | none =>
        refine ⟨false, io_parsed, by simp [io_convert_loop, hne, hg], ?_, ?_, ?_⟩
        · constructor
          · intro h
            cases h
          · intro h
            exact absurd hg (h i (le_refl _) hlt)
        · intro h
          cases h
        · intro _
          exact ⟨i, le_refl _, hlt, hg, fun j h1 h2 => by omega, fun _ _ => rfl⟩
      | some g =>
        obtain ⟨r, p, hr, h1, h2, h3⟩ :=
          ih (i + 1) fuel (setParsed io_parsed i (some g)) (by omega) (by omega)
        refine ⟨r, p, by simp [io_convert_loop, hne, hg, hr], ?_, ?_, ?_⟩
        · rw [h1]
          constructor
          · intro h j hj1 hj2
            rcases Nat.eq_or_lt_of_le hj1 with heq | hlt2
            · rw [← heq, hg]
              simp
            · exact h j hlt2 hj2
          · intro h j hj1 hj2
            exact h j (by omega) hj2
        · intro hrt
          obtain ⟨a1, a2, a3⟩ := h2 hrt
          refine ⟨?_, a2, ?_⟩
          · intro j hj1 hj2
            rcases Nat.eq_or_lt_of_le hj1 with heq | hlt2
            · rw [← heq, a3 i (Or.inl (by omega)), hg]
              simp [setParsed]
            · exact a1 j hlt2 hj2
          · intro j hj
            have hji : j ≠ i := by omega
            rw [a3 j (by omega)]
            simp [setParsed, hji]
        · intro hrf
          obtain ⟨k, k1, k2, k3, k4, k5⟩ := h3 hrf
          refine ⟨k, by omega, k2, k3, ?_, ?_⟩
          · intro j hj1 hj2
            rcases Nat.eq_or_lt_of_le hj1 with heq | hlt2
            · subst heq
              refine ⟨by rw [hg]; simp, ?_⟩
              rw [k5 i (Or.inl (by omega)), hg]
              simp [setParsed]
            · exact k4 j hlt2 hj2
          · intro j hj
            have hji : j ≠ i := by omega
            rw [k5 j (by omega)]
            simp [setParsed, hji]

/-- C11: for every `io_line` whose first `END_OF_TEXT` is at an index `n` of the
buffer, `io_convert_line` returns, and it returns true exactly when
`get_glyph_by_pattern` gives a glyph for each of the cells `io_line[0..n-1]`. When it
returns true, `io_parsed[i]` is the glyph of `io_line[i]` for every `i < n` and
`io_parsed[n]` is NULL. When it returns false, the first cell without a glyph is at
an index `k < n`, and the entries of `io_parsed` from `k` on are what they were (those
before `k` hold the glyphs of their cells). -/
theorem io_convert_line_spec {G : Type} (M : IoMacros) (glyph : Nat → Option G)
    (io_line : Nat → Nat) (io_parsed : Nat → Option G) (n : Nat)
    (hn : n < M.MAX_BUF_SIZE) (heot : io_line n = M.END_OF_TEXT)
    (hfirst : ∀ i, i < n → io_line i ≠ M.END_OF_TEXT) :
    ∃ r p, io_convert_line M glyph io_line io_parsed = some (r, p) ∧
      (r = true ↔ ∀ i, i < n → glyph (io_line i) ≠ none) ∧
      (r = true →
        (∀ i, i < n → p i = glyph (io_line i)) ∧ p n = none ∧
        ∀ j, n < j → p j = io_parsed j) ∧
      (r = false →
        ∃ k, k < n ∧ glyph (io_line k) = none ∧
          (∀ i, i < k → glyph (io_line i) ≠ none ∧ p i = glyph (io_line i)) ∧
          ∀ j, k ≤ j → p j = io_parsed j) := by
  obtain ⟨r, p, hr, h1, h2, h3⟩ :=
    io_convert_loop_spec M glyph io_line n heot hfirst n 0 M.MAX_BUF_SIZE io_parsed
      (by omega) hn
  refine ⟨r, p, hr, ?_, ?_, ?_⟩
  · rw [h1]
    exact ⟨fun h i hi => h i (Nat.zero_le _) hi, fun h i _ hi => h i hi⟩
  · intro hrt
    obtain ⟨a1, a2, a3⟩ := h2 hrt
    exact ⟨fun i hi => a1 i (Nat.zero_le _) hi, a2, fun j hj => a3 j (Or.inr hj)⟩
  · intro hrf
    obtain ⟨k, -, k2, k3, k4, k5⟩ := h3 hrf
    exact ⟨k, k2, k3, fun i hi => k4 i (Nat.zero_le _) hi, fun j hj => k5 j (Or.inr hj)⟩

/-- Witness of `io_convert_line_spec`: the line with the patterns 1 and 2 before
`END_OF_TEXT`, in a buffer of 4 cells. -/
theorem io_convert_line_spec_witness :
    (2 < macros4.MAX_BUF_SIZE ∧ line_1_2 2 = macros4.END_OF_TEXT ∧
      ∀ i, i < 2 → line_1_2 i ≠ macros4.END_OF_TEXT) ∧
    ∃ r p, io_convert_line macros4 glyph_nonzero line_1_2 (fun _ => none) = some (r, p) ∧
      (r = true ↔ ∀ i, i < 2 → glyph_nonzero (line_1_2 i) ≠ none) ∧
      (r = true →
        (∀ i, i < 2 → p i = glyph_nonzero (line_1_2 i)) ∧ p 2 = none ∧
        ∀ j, 2 < j → p j = (fun _ => none) j) ∧
      (r = false →
        ∃ k, k < 2 ∧ glyph_nonzero (line_1_2 k) = none ∧
          (∀ i, i < k → glyph_nonzero (line_1_2 i) ≠ none ∧ p i = glyph_nonzero (line_1_2 i)) ∧
          ∀ j, k ≤ j → p j = (fun _ => none) j) :=
  ⟨⟨by decide, by decide, by decide⟩,
    io_convert_line_spec macros4 glyph_nonzero line_1_2 (fun _ => none) 2
      (by decide) (by decide) (by decide)⟩

/-! ## Theorems: dialogs -/

theorem clear_dots_apply (flags : Nat → Bool) :
    ∀ k i, clear_dots k flags i = if i < k then false else flags i := by
  intro k
  induction k with
  | zero => intro i; simp [clear_dots]
  | succ k ih =>
    intro i
    simp only [clear_dots, setFlag]
    by_cases h : i = k
    · subst h
      simp
    · rw [if_neg h, ih]
      by_cases h2 : i < k
      · simp [h2, Nat.lt_succ_of_lt h2]
      · have : ¬ i < k + 1 := by omega
        simp [h2, this]

theorem mask_bit (mask i : Nat) : mask &&& (1 <<< i) ≠ 0 ↔ mask.testBit i = true := by
  rw [Nat.one_shiftLeft, Nat.and_two_pow]
  cases mask.testBit i <;> simp

theorem enable_dots_apply (mask : Nat) (flags : Nat → Bool) :
    ∀ k i, enable_dots mask k flags i
      = if i < k ∧ mask.testBit i = true then true else flags i := by
  intro k
  induction k with
  | zero => intro i; simp [enable_dots]
  | succ k ih =>
    intro i
    simp only [enable_dots]
    by_cases hbit : mask &&& (1 <<< k) ≠ 0
    · rw [if_pos hbit]
      simp only [setFlag]
      by_cases h : i = k
      · subst h
        simp [(mask_bit mask i).mp hbit]
      · rw [if_neg h, ih]
        by_cases h2 : i < k
        · simp [h2, Nat.lt_succ_of_lt h2]
        · have : ¬ i < k + 1 := by omega
          simp [h2, this]
    · rw [if_neg hbit, ih]
      have hb : ¬ mask.testBit k = true := fun h => hbit ((mask_bit mask k).mpr h)
      by_cases h : i = k
      · subst h
        simp [hb]
      · by_cases h2 : i < k
        · simp [h2, Nat.lt_succ_of_lt h2]
        · have : ¬ i < k + 1 := by omega
          simp [h2, this]

theorem io_dialog_init_spec (D : DialogMacros) (mask : Nat) (s : Dialog) :
    (io_dialog_init D mask s).initialised_with D mask ∧
    (io_dialog_init D mask s).io_dialog_incorrect_tries = -1 ∧
    (io_dialog_init D mask s).io_dot = s.io_dot ∧
    (io_dialog_init D mask s).events = s.events := by
  refine ⟨⟨rfl, ?_, ?_, ?_⟩, rfl, rfl, rfl⟩
  · intro i hi
    show enable_dots mask 6 (clear_dots 6 s.io_dialog_dots_enabled) i = mask.testBit i
    rw [enable_dots_apply, clear_dots_apply]
    cases mask.testBit i <;> simp [hi]
  · show (if mask &&& D.ENTER_CANCEL = D.ENTER_CANCEL then true else false) = _
    by_cases h : mask &&& D.ENTER_CANCEL = D.ENTER_CANCEL <;> simp [h]
  · show (if mask &&& D.LEFT_RIGHT = D.LEFT_RIGHT then true else false) = _
    by_cases h : mask &&& D.LEFT_RIGHT = D.LEFT_RIGHT <;> simp [h]

theorem dialog_ready_spec (D : DialogMacros) (mask arg : Nat) (s : Dialog)
    (hs : (s.io_dialog_initialised = false ∧ arg = mask) ∨ s.initialised_with D mask) :
    (dialog_ready D arg s).initialised_with D mask ∧
    (dialog_ready D arg s).io_dialog_incorrect_tries = s.tries_at_call ∧
    (dialog_ready D arg s).io_dot = s.io_dot ∧
    (dialog_ready D arg s).events = s.events := by
  unfold dialog_ready Dialog.tries_at_call
  rcases hs with ⟨h0, harg⟩ | h1
  · subst harg
    rw [if_pos h0, if_pos h0]
    exact io_dialog_init_spec D arg s
  · have ht : ¬ s.io_dialog_initialised = false := by
      rw [h1.1]
      simp
    rw [if_neg ht, if_neg ht]
    exact ⟨h1, rfl, rfl, rfl⟩

theorem dot_ne_label (x y : Nat) (hy : y < 49 ∨ 54 < y) (hx : 49 ≤ x ∧ x ≤ 54) :
    x ≠ y := by
  omega

theorem label_not_dot (x : Nat) (hx : x < 49 ∨ 54 < x) : ¬ (49 ≤ x ∧ x ≤ 54) := by
  omega

/-- With distinct case labels a button is not `NO_DOTS` and belongs to exactly one of
the three groups of cases: the dots, `ENTER`/`CANCEL`, `LEFT`/`RIGHT`. -/
theorem button_kind (D : DialogMacros) (b : Nat) (hD : D.labels_distinct)
    (hb : is_button D b) :
    b ≠ D.NO_DOTS ∧
    (((49 ≤ b ∧ b ≤ 54) ∧ ¬ (b = D.ENTER ∨ b = D.CANCEL) ∧ ¬ (b = D.LEFT ∨ b = D.RIGHT)) ∨
     (¬ (49 ≤ b ∧ b ≤ 54) ∧ (b = D.ENTER ∨ b = D.CANCEL) ∧ ¬ (b = D.LEFT ∨ b = D.RIGHT)) ∨
     (¬ (49 ≤ b ∧ b ≤ 54) ∧ ¬ (b = D.ENTER ∨ b = D.CANCEL) ∧
       (b = D.LEFT ∨ b = D.RIGHT))) := by
  obtain ⟨rN, rE, rC, rL, rR, nNE, nNC, nNL, nNR, nEC, nEL, nER, nCL, nCR, nLR⟩ := hD
  rcases hb with h | h | h | h | h
  · exact ⟨dot_ne_label b _ rN h, Or.inl ⟨h,
      fun e => e.elim (dot_ne_label b _ rE h) (dot_ne_label b _ rC h),
      fun e => e.elim (dot_ne_label b _ rL h) (dot_ne_label b _ rR h)⟩⟩
  · subst h
    exact ⟨nNE.symm, Or.inr (Or.inl ⟨label_not_dot _ rE, Or.inl rfl,
      fun e => e.elim nEL nER⟩)⟩
  · subst h
    exact ⟨nNC.symm, Or.inr (Or.inl ⟨label_not_dot _ rC, Or.inr rfl,
      fun e => e.elim nCL nCR⟩)⟩
  · subst h
    exact ⟨nNL.symm, Or.inr (Or.inr ⟨label_not_dot _ rL,
      fun e => e.elim nEL.symm nCL.symm, Or.inl rfl⟩)⟩
  · subst h
    exact ⟨nNR.symm, Or.inr (Or.inr ⟨label_not_dot _ rR,
      fun e => e.elim nER.symm nCR.symm, Or.inr rfl⟩)⟩

/-- What the `switch` of `create_dialog` does with a pending button in a dialog that
is initialised with `mask`: an enabled button is returned and ends the dialog, a
disabled one goes to `io_dialog_error`. -/
theorem dialog_switch_button (D : DialogMacros) (prompt : String) (mask : Nat)
    (s1 : Dialog) (hD : D.labels_distinct)
    (hC : ∀ d, 49 ≤ d → d ≤ 54 → D.CHARTOINT d = d - 48)
    (h1 : s1.initialised_with D mask) (hb : is_button D s1.io_dot) :
    (button_enabled D mask s1.io_dot →
      dialog_switch D prompt s1 = (s1.io_dot, dialog_done (get_dot D s1).2)) ∧
    (¬ button_enabled D mask s1.io_dot →
      dialog_switch D prompt s1 = (D.NO_DOTS, io_dialog_error D (get_dot D s1).2)) := by
  obtain ⟨hN, hkind⟩ := button_kind D s1.io_dot hD hb
  obtain ⟨-, hdots, hec, hlr⟩ := h1
  have c0 : ¬ (get_dot D s1).1 = D.NO_DOTS := hN
  rcases hkind with ⟨hdig, kEC, kLR⟩ | ⟨kdig, hEC, kLR⟩ | ⟨kdig, kEC, hLR⟩
  · -- a dot button
    have c1 : 49 ≤ (get_dot D s1).1 ∧ (get_dot D s1).1 ≤ 54 := hdig
    have hidx : D.CHARTOINT s1.io_dot - 1 = s1.io_dot - 49 := by
      rw [hC _ hdig.1 hdig.2]
      omega
    have hflag : (get_dot D s1).2.io_dialog_dots_enabled (D.CHARTOINT (get_dot D s1).1 - 1)
        = mask.testBit (s1.io_dot - 49) := by
      show s1.io_dialog_dots_enabled (D.CHARTOINT s1.io_dot - 1) = _
      rw [hidx]
      exact hdots _ (by omega)
    have hen : button_enabled D mask s1.io_dot ↔ mask.testBit (s1.io_dot - 49) = true := by
      unfold button_enabled
      constructor
      · rintro (⟨-, -, h⟩ | ⟨h, -⟩ | ⟨h, -⟩)
        · exact h
        · exact absurd h kEC
        · exact absurd h kLR
      · intro h
        exact Or.inl ⟨hdig.1, hdig.2, h⟩
    constructor
    · intro he
      simp only [dialog_switch, if_neg c0, if_pos c1, hflag, hen.mp he, if_true]
      rfl
    · intro he
      have hf : ¬ mask.testBit (s1.io_dot - 49) = true := fun h => he (hen.mpr h)
      simp only [dialog_switch, if_neg c0, if_pos c1, hflag, if_neg hf]
  · -- ENTER or CANCEL
    have c1 : ¬ (49 ≤ (get_dot D s1).1 ∧ (get_dot D s1).1 ≤ 54) := kdig
    have c2 : (get_dot D s1).1 = D.ENTER ∨ (get_dot D s1).1 = D.CANCEL := hEC
    have hflag : (get_dot D s1).2.io_dialog_enter_cancel_enabled
        = decide (mask &&& D.ENTER_CANCEL = D.ENTER_CANCEL) := hec
    have hen : button_enabled D mask s1.io_dot
        ↔ mask &&& D.ENTER_CANCEL = D.ENTER_CANCEL := by
      unfold button_enabled
      constructor
      · rintro (⟨h, h2, -⟩ | ⟨-, h⟩ | ⟨h, -⟩)
        · exact absurd ⟨h, h2⟩ kdig
        · exact h
        · exact absurd h kLR
      · intro h
        exact Or.inr (Or.inl ⟨hEC, h⟩)
    constructor
    · intro he
      simp only [dialog_switch, if_neg c0, if_neg c1, if_pos c2, hflag, hen.mp he,
        decide_True, if_true]
      rfl
    · intro he
      have hf : ¬ mask &&& D.ENTER_CANCEL = D.ENTER_CANCEL := fun h => he (hen.mpr h)
      simp only [dialog_switch, if_neg c0, if_neg c1, if_pos c2, hflag, hf, decide_False,
        Bool.false_eq_true, if_false]
  · -- LEFT or RIGHT
    have c1 : ¬ (49 ≤ (get_dot D s1).1 ∧ (get_dot D s1).1 ≤ 54) := kdig
    have c2 : ¬ ((get_dot D s1).1 = D.ENTER ∨ (get_dot D s1).1 = D.CANCEL) := kEC
    have c3 : (get_dot D s1).1 = D.LEFT ∨ (get_dot D s1).1 = D.RIGHT := hLR
    have hflag : (get_dot D s1).2.io_dialog_left_right_enabled
        = decide (mask &&& D.LEFT_RIGHT = D.LEFT_RIGHT) := hlr
    have hen : button_enabled D mask s1.io_dot
        ↔ mask &&& D.LEFT_RIGHT = D.LEFT_RIGHT := by
      unfold button_enabled
      constructor
      · rintro (⟨h, h2, -⟩ | ⟨h, -⟩ | ⟨-, h⟩)
        · exact absurd ⟨h, h2⟩ kdig
        · exact absurd h kEC
        · exact h
      · intro h
        exact Or.inr (Or.inr ⟨hLR, h⟩)
    constructor
    · intro he
      simp only [dialog_switch, if_neg c0, if_neg c1, if_neg c2, if_pos c3, hflag,
        hen.mp he, decide_True, if_true]
      rfl
    · intro he
      have hf : ¬ mask &&& D.LEFT_RIGHT = D.LEFT_RIGHT := fun h => he (hen.mpr h)
      simp only [dialog_switch, if_neg c0, if_neg c1, if_neg c2, if_pos c3, hflag, hf,
        decide_False, Bool.false_eq_true, if_false]

theorem io_dialog_error_spec (D : DialogMacros) (s1 : Dialog)
    (ht : -32768 ≤ s1.io_dialog_incorrect_tries ∧ s1.io_dialog_incorrect_tries < 32767) :
    (io_dialog_error D (get_dot D s1).2).io_dialog_initialised = s1.io_dialog_initialised ∧
    (io_dialog_error D (get_dot D s1).2).events
      = s1.events ++ [.play_dot s1.io_dot, .play_mp3_lang "INVP"] ∧
    (io_dialog_error D (get_dot D s1).2).io_dialog_incorrect_tries
      = (if D.MAX_INCORRECT_TRIES ≤ s1.io_dialog_incorrect_tries + 1 then -1
         else s1.io_dialog_incorrect_tries + 1) := by
  refine ⟨rfl, ?_, ?_⟩
  · show (s1.events ++ [DialogEvent.play_dot s1.io_dot]) ++ [DialogEvent.play_mp3_lang "INVP"]
      = _
    rw [List.append_assoc]
    rfl
  · show (if D.MAX_INCORRECT_TRIES ≤ toShort (s1.io_dialog_incorrect_tries + 1) then -1
      else toShort (s1.io_dialog_incorrect_tries + 1)) = _
    rw [toShort_of_range _ (by omega) (by omega)]

/-- C12, with the count of incorrect tries as `io_dialog_error` keeps it: in a dialog
that is initialised with `control_mask` (by this call of `create_dialog`, or by an
earlier one), for every button `b` then pressed, `create_dialog` returns a value other
than `NO_DOTS` exactly when `b` is enabled by the mask (dot `i` when bit `i - 1` is
set, `ENTER`/`CANCEL` when all `ENTER_CANCEL` bits are set, `LEFT`/`RIGHT` when all
`LEFT_RIGHT` bits are set); an enabled button is returned and the dialog is marked
uninitialised; a disabled button makes it return `NO_DOTS`, play the invalid-input
prompt `INVP` and add one to the count of incorrect tries, which restarts at -1 when
it reaches `MAX_INCORRECT_TRIES`. -/
theorem create_dialog_button (D : DialogMacros) (prompt : String) (control_mask b : Nat)
    (s : Dialog) (hD : D.labels_distinct)
    (hC : ∀ d, 49 ≤ d → d ≤ 54 → D.CHARTOINT d = d - 48)
    (hs : s.io_dialog_initialised = false ∨ s.initialised_with D control_mask)
    (ht : -32768 ≤ s.tries_at_call ∧ s.tries_at_call < 32767)
    (hb : is_button D b) :
    ((press D prompt control_mask b s).1 ≠ D.NO_DOTS ↔ button_enabled D control_mask b) ∧
    (button_enabled D control_mask b →
      (press D prompt control_mask b s).1 = b ∧
      (press D prompt control_mask b s).2.io_dialog_initialised = false ∧
      (press D prompt control_mask b s).2.io_dialog_incorrect_tries = s.tries_at_call ∧
      (press D prompt control_mask b s).2.events = s.events ++ [.play_dot b]) ∧
    (¬ button_enabled D control_mask b →
      (press D prompt control_mask b s).1 = D.NO_DOTS ∧
      (press D prompt control_mask b s).2.io_dialog_initialised = true ∧
      (press D prompt control_mask b s).2.events
        = s.events ++ [.play_dot b, .play_mp3_lang "INVP"] ∧
      (press D prompt control_mask b s).2.io_dialog_incorrect_tries
        = (if D.MAX_INCORRECT_TRIES ≤ s.tries_at_call + 1 then -1
           else s.tries_at_call + 1)) := by
  have hs2 : ((with_dot b s).io_dialog_initialised = false ∧ control_mask = control_mask) ∨
      (with_dot b s).initialised_with D control_mask :=
    hs.imp (fun h => ⟨h, rfl⟩) (fun h => h)
  obtain ⟨h1, htr, hdot, hev⟩ :=
    dialog_ready_spec D control_mask control_mask (with_dot b s) hs2
  have htr2 : (dialog_ready D control_mask (with_dot b s)).io_dialog_incorrect_tries
      = s.tries_at_call := htr
  have hdot2 : (dialog_ready D control_mask (with_dot b s)).io_dot = b := hdot
  have hev2 : (dialog_ready D control_mask (with_dot b s)).events = s.events := hev
  have hNb : b ≠ D.NO_DOTS := (button_kind D b hD hb).1
  unfold press create_dialog
  generalize dialog_ready D control_mask (with_dot b s) = s1 at h1 htr2 hdot2 hev2
  have hb1 : is_button D s1.io_dot := by
    rw [hdot2]
    exact hb
  obtain ⟨hen, hdis⟩ := dialog_switch_button D prompt control_mask s1 hD hC h1 hb1
  rw [hdot2] at hen hdis
  obtain ⟨e1, e2, e3⟩ := io_dialog_error_spec D s1 (by rw [htr2]; exact ht)
  rw [hdot2, hev2] at e2
  rw [htr2] at e3
  rw [h1.1] at e1
  have g2 : (dialog_done (get_dot D s1).2).events = s.events ++ [.play_dot b] := by
    show s1.events ++ [DialogEvent.play_dot s1.io_dot] = _
    rw [hdot2, hev2]
  have g3 : (dialog_done (get_dot D s1).2).io_dialog_incorrect_tries = s.tries_at_call :=
    htr2
  refine ⟨?_, ?_, ?_⟩
  · by_cases he : button_enabled D control_mask b
    · rw [hen he]
      exact ⟨fun _ => he, fun _ => hNb⟩
    · rw [hdis he]
      exact ⟨fun h => absurd rfl h, fun h => absurd h he⟩
  · intro he
    rw [hen he]
    exact ⟨rfl, rfl, g3, g2⟩
  · intro he
    rw [hdis he]
    exact ⟨rfl, e1, e2, e3⟩

/-- Witness of `create_dialog_button`: the enabled dot `'2'` pressed in the dialog
with the mask `DOT_1 | DOT_2 | ENTER_CANCEL` after three incorrect tries. -/
theorem create_dialog_button_witness :
    (dialog_macros.labels_distinct ∧
      (∀ d, 49 ≤ d → d ≤ 54 → dialog_macros.CHARTOINT d = d - 48) ∧
      (dialog_three_errors.io_dialog_initialised = false ∨
        dialog_three_errors.initialised_with dialog_macros 131) ∧
      (-32768 ≤ dialog_three_errors.tries_at_call ∧
        dialog_three_errors.tries_at_call < 32767) ∧
      is_button dialog_macros 50) ∧
    ((press dialog_macros "MENU" 131 50 dialog_three_errors).1 ≠ dialog_macros.NO_DOTS ↔
      button_enabled dialog_macros 131 50) ∧
    (button_enabled dialog_macros 131 50 →
      (press dialog_macros "MENU" 131 50 dialog_three_errors).1 = 50 ∧
      (press dialog_macros "MENU" 131 50 dialog_three_errors).2.io_dialog_initialised
        = false ∧
      (press dialog_macros "MENU" 131 50 dialog_three_errors).2.io_dialog_incorrect_tries
        = dialog_three_errors.tries_at_call ∧
      (press dialog_macros "MENU" 131 50 dialog_three_errors).2.events
        = dialog_three_errors.events ++ [.play_dot 50]) ∧
    (¬ button_enabled dialog_macros 131 50 →
      (press dialog_macros "MENU" 131 50 dialog_three_errors).1 = dialog_macros.NO_DOTS ∧
      (press dialog_macros "MENU" 131 50 dialog_three_errors).2.io_dialog_initialised
        = true ∧
      (press dialog_macros "MENU" 131 50 dialog_three_errors).2.events
        = dialog_three_errors.events ++ [.play_dot 50, .play_mp3_lang "INVP"] ∧
      (press dialog_macros "MENU" 131 50 dialog_three_errors).2.io_dialog_incorrect_tries
        = (if dialog_macros.MAX_INCORRECT_TRIES ≤ dialog_three_errors.tries_at_call + 1
           then -1 else dialog_three_errors.tries_at_call + 1)) :=
  ⟨⟨by decide, fun _ _ _ => rfl, Or.inr (by decide), by decide, by decide⟩,
    create_dialog_button dialog_macros "MENU" 131 50 dialog_three_errors
      (by decide) (fun _ _ _ => rfl) (Or.inr (by decide)) (by decide) (by decide)⟩

/-- C12 as stated fails: in the dialog of `learn_letter_mode.c` with the mask
`DOT_1 | DOT_2 | ENTER_CANCEL`, after three presses of the disabled dot `'3'` the count
of incorrect tries is 2; a fourth press returns `NO_DOTS`, but the count is then -1
and not 3: the try is not counted, the count restarts. -/
theorem create_dialog_fourth_error :
    dialog_macros.labels_distinct ∧
    dialog_three_errors.initialised_with dialog_macros 131 ∧
    dialog_three_errors.io_dialog_incorrect_tries = 2 ∧
    is_button dialog_macros 51 ∧ ¬ button_enabled dialog_macros 131 51 ∧
    (press dialog_macros "MENU" 131 51 dialog_three_errors).1 = dialog_macros.NO_DOTS ∧
    (press dialog_macros "MENU" 131 51 dialog_three_errors).2.io_dialog_incorrect_tries
      = -1 ∧
    (press dialog_macros "MENU" 131 51 dialog_three_errors).2.io_dialog_incorrect_tries
      ≠ dialog_three_errors.io_dialog_incorrect_tries + 1 := by
  decide

end SABT
